import Mathlib

/-!
Verification development for the neqo multi-connection QUIC server
demultiplexer (`neqo-transport/src/server.rs`).

The server code is embedded shallowly.  External collaborators that are not
part of the embedded file (the per-connection engine `Connection`, the shared
`ConnectionIdGenerator`, the address-validation token crypto and the packet
builder/parser) are modelled from the specification: the embedding is
parametrised over their behaviour (`World`), and the wire codec is a simple
tagged format that realises the classification the spec describes.

Fallible operations return `Except String`; a `.error` marks a Rust panic
site (an `unwrap` on `None` or an `unreachable!`).
-/

namespace Neqo

/-- Connection ID: an opaque byte string (`ConnectionId`). -/
abbrev Cid := List Nat

/-- Remote/local socket address, abstracted to a number. -/
abbrev SocketAddr := Nat

/-- A point in time (`Instant`), abstracted to a number. -/
abbrev Instant := Nat

/-- An address-validation token: an opaque byte string. -/
abbrev Token := List Nat

/-- A QUIC version, identified by its wire encoding. -/
abbrev Version := Nat

/-- A UDP datagram (`neqo_common::Datagram`): source and destination
addresses, a TOS byte and the payload bytes.  `Datagram::new(src, dst, tos,
data)`; `len()` is the payload length. -/
structure Datagram where
  src : SocketAddr
  dst : SocketAddr
  tos : Nat
  payload : List Nat
deriving DecidableEq

/-- Modelled from the spec: the engine states the server observes, projected
from the engine (`connection::State`), ordered
`Init < Handshaking < Confirmed < Closing < Closed` (spec section 4.7). -/
inductive State where
  | Init
  | Handshaking
  | Confirmed
  | Closing
  | Closed
deriving DecidableEq

/-- Position of a state in the lifecycle order. -/
def State.rank : State → Nat
  | .Init => 0
  | .Handshaking => 1
  | .Confirmed => 2
  | .Closing => 3
  | .Closed => 4

/-- `*state > State::Handshaking` in the source. -/
def State.pastHandshaking (s : State) : Bool := decide (1 < s.rank)

/-- `matches!(state, State::Closed(_))` in the source. -/
def State.isClosed : State → Bool
  | .Closed => true
  | _ => false

/-- The driver result (`connection::Output`): nothing, an outbound datagram,
or a callback deadline. -/
inductive Output where
  | none
  | datagram (d : Datagram)
  | callback (t : Instant)
deriving DecidableEq

/-- First-packet classification (`packet::PacketType`), as used by the
server. -/
inductive PacketType where
  | initial
  | zeroRtt
  | handshake
  | short
  | otherVersion
deriving DecidableEq

/-- The decoded first packet header (`packet::PublicPacket`): its type,
connection IDs, token, parsed version (`version()` is `None` for an
unrecognised version) and the raw wire version. -/
structure PublicPacket where
  ptype : PacketType
  dcid : Cid
  scid : Cid
  token : Token
  version : Option Version
  wireVersion : Nat
deriving DecidableEq

/-- Modelled from the spec: the versions the packet codec itself recognises;
a long-header packet with any other wire version classifies as
`OtherVersion`. -/
def knownVersions : List Version := [1, 2]

/-- `packet::MIN_INITIAL_PACKET_SIZE`: the 1200-byte minimum for datagrams
carrying an Initial. -/
def MIN_INITIAL_PACKET_SIZE : Nat := 1200

/-- Read a length-prefixed chunk from a byte list; fails when the prefix
overruns the input. -/
def readChunk : List Nat → Option (List Nat × List Nat)
  | n :: rest =>
    if n ≤ rest.length then some (rest.take n, rest.drop n) else Option.none
  | [] => Option.none

/-- Modelled from the spec: `PublicPacket::decode` on the first packet of a
datagram (`packet.rs` is outside the embedded file).  A simple tagged format
realises the classification of spec section 4.2: tag 0 is an Initial wire
form, tag 1 a 0-RTT wire form, tag 2 a short header, tag 3 a Handshake wire
form.  Long-header forms whose wire version is not recognised by the codec
classify as `otherVersion` with `version() = None`; recognised ones carry
`version() = Some v`.  Anything else is a decode failure. -/
def decode (bytes : List Nat) : Option PublicPacket :=
  match bytes with
  | 0 :: wv :: rest =>
    match readChunk rest with
    | Option.none => Option.none
    | some (dcid, r1) =>
      match readChunk r1 with
      | Option.none => Option.none
      | some (scid, r2) =>
        match readChunk r2 with
        | Option.none => Option.none
        | some (tok, _) =>
          if wv ∈ knownVersions then
            some ⟨.initial, dcid, scid, tok, some wv, wv⟩
          else
            some ⟨.otherVersion, dcid, scid, tok, Option.none, wv⟩
  | 1 :: wv :: rest =>
    match readChunk rest with
    | Option.none => Option.none
    | some (dcid, r1) =>
      match readChunk r1 with
      | Option.none => Option.none
      | some (scid, _) =>
        if wv ∈ knownVersions then
          some ⟨.zeroRtt, dcid, scid, [], some wv, wv⟩
        else
          some ⟨.otherVersion, dcid, scid, [], Option.none, wv⟩
  | 2 :: rest =>
    match readChunk rest with
    | Option.none => Option.none
    | some (dcid, _) => some ⟨.short, dcid, [], [], Option.none, 0⟩
  | 3 :: wv :: rest =>
    match readChunk rest with
    | Option.none => Option.none
    | some (dcid, r1) =>
      match readChunk r1 with
      | Option.none => Option.none
      | some (scid, _) =>
        if wv ∈ knownVersions then
          some ⟨.handshake, dcid, scid, [], some wv, wv⟩
        else
          some ⟨.otherVersion, dcid, scid, [], Option.none, wv⟩
  | _ => Option.none

/-- Modelled from the spec: `PacketBuilder::version_negotiation(scid', dcid',
wire_version, versions)` called with the packet's scid and dcid.  Per spec
section 6.3 the reply flips the IDs: reply `scid` = packet's dcid, reply
`dcid` = packet's scid, and the body lists the configured versions.  Encoded
as reply-scid chunk, reply-dcid chunk, then the version list. -/
def versionNegotiation (pktScid pktDcid : Cid) (_wireVer : Nat)
    (versions : List Version) : List Nat :=
  (pktDcid.length :: pktDcid) ++ (pktScid.length :: pktScid) ++ versions

/-- The scid field of an encoded Version Negotiation reply. -/
def vnScid (bytes : List Nat) : Option Cid :=
  (readChunk bytes).map (·.1)

/-- The dcid field of an encoded Version Negotiation reply. -/
def vnDcid (bytes : List Nat) : Option Cid :=
  (readChunk bytes).bind fun p => (readChunk p.2).map (·.1)

/-- The version list of an encoded Version Negotiation reply. -/
def vnVersions (bytes : List Nat) : Option (List Version) :=
  (readChunk bytes).bind fun p => (readChunk p.2).map (·.2)

/-- The address-validation policy (`addr_valid::ValidateAddress`). -/
inductive ValidateAddress where
  | Never
  | NewConnection
  | Always
deriving DecidableEq

/-- `addr_valid::AddressValidationResult`. -/
inductive AddressValidationResult where
  | Invalid
  | Pass
  | ValidRetry (odcid : Cid)
  | Validate
deriving DecidableEq

/-- Modelled from the spec: how long a retry token stays fresh (tokens are
time-bounded, spec section 3). -/
def tokenLifetime : Nat := 10

/-- Modelled from the spec: parse an authenticated retry token into the
address, mint time and ODCID it is bound to. -/
def decodeRetryToken : Token → Option (SocketAddr × Instant × Cid)
  | a :: t :: odcid => if odcid = [] then Option.none else some (a, t, odcid)
  | _ => Option.none

/-- Modelled from the spec: `AddressValidation::validate` (`addr_valid.rs` is
outside the embedded file).  An absent token passes under policy `Never` and
asks for a Retry otherwise; a present token proves a previous Retry
(`ValidRetry` with the ODCID it is bound to) when bound to this source
address and still fresh, and is `Invalid` otherwise (spec sections 3 and
4.3). -/
def validate (policy : ValidateAddress) (token : Token) (source : SocketAddr)
    (now : Instant) : AddressValidationResult :=
  match token with
  | [] => if policy = .Never then .Pass else .Validate
  | _ =>
    match decodeRetryToken token with
    | some (a, t, odcid) =>
      if a = source ∧ t ≤ now ∧ now ≤ t + tokenLifetime then .ValidRetry odcid
      else .Invalid
    | Option.none => .Invalid

/-- The `orig_dcid` a surviving Initial continues with: `some od` when
validation yields `Pass` (`od = Option.none`) or `ValidRetry o`
(`od = some o`), and `Option.none` when the packet is dropped or retried. -/
def survivesWith (policy : ValidateAddress) (token : Token)
    (source : SocketAddr) (now : Instant) : Option (Option Cid) :=
  match validate policy token source now with
  | .Pass => some Option.none
  | .ValidRetry o => some (some o)
  | _ => Option.none

/-- `AttemptKey`: identity of an in-flight handshake attempt. -/
structure AttemptKey where
  remote_address : SocketAddr
  odcid : Cid
deriving DecidableEq

/-- `InitialDetails`: the values copied out of a decoded Initial packet. -/
structure InitialDetails where
  src_cid : Cid
  dst_cid : Cid
  token : Token
  version : Version
deriving DecidableEq

/-- `InitialDetails::new`: copies the header fields; `packet.version().unwrap()`
panics when the version is absent. -/
def InitialDetails.new (p : PublicPacket) : Except String InitialDetails :=
  match p.version with
  | some v => Except.ok ⟨p.scid, p.dcid, p.token, v⟩
  | Option.none => Except.error "InitialDetails::new: version().unwrap() on None"

/-- Modelled from the spec: the behaviour of the external collaborators the
server is parametrised over (spec section 6.2).  `C` is the state of one
per-connection engine, `G` the state of the shared connection-ID generator.
* `newServer` — `Connection::new_server`, given the Initial's version and the
  connection IDs it minted during construction; `Option.none` is a
  construction failure.
* `mintRequests` — how many CIDs the engine requests while it is constructed
  (the spec notes it mints at least one).
* `stepC` — `Connection::process`, the black-box engine driver.
* `stateC` — `Connection::state()`.
* `genCid` — the shared `ConnectionIdGenerator::generate_cid`.
* `mintToken` — `AddressValidation::generate_retry_token`; may fail.
* `encRetry` — `PacketBuilder::retry(version, scid, dcid, token, odcid)`;
  may fail to encode. -/
structure World (C G : Type) where
  newServer : Version → List (Option Cid) → Option C
  mintRequests : Nat
  stepC : C → Option Datagram → Instant → C × Output
  stateC : C → State
  genCid : G → Option Cid × G
  mintToken : Cid → SocketAddr → Instant → Option Token
  encRetry : Version → Cid → Cid → Token → Cid → Option (List Nat)

/-- `ServerConnectionState`: an engine plus the optional attempt key. -/
structure SCS (C : Type) where
  c : C
  active_attempt : Option AttemptKey

/-- `ServerConnectionState::process`: drive the engine, then clear the active
attempt once the state is strictly past `Handshaking`. -/
def SCS.process {C G : Type} (W : World C G) (s : SCS C)
    (dgram : Option Datagram) (now : Instant) : SCS C × Output :=
  (⟨(W.stepC s.c dgram now).1,
    if (W.stateC (W.stepC s.c dgram now).1).pastHandshaking then Option.none
    else s.active_attempt⟩,
   (W.stepC s.c dgram now).2)

/-- The shared connection table, `HashMap<ConnectionId, StateRef>`, with the
`Rc` aliasing split out: the table maps a CID to the reference id of a
connection state held in a separate store. -/
abbrev Table := List (Cid × Nat)

/-- Look a CID up in the connection table. -/
def lookupTable (t : Table) (cid : Cid) : Option Nat :=
  (t.find? fun p => decide (p.1 = cid)).map (·.2)

/-- `HashMap::insert`: replace the binding of `cid` if present, otherwise add
it. -/
def insert_cid (cid : Cid) (r : Nat) (t : Table) : Table :=
  if (t.find? fun p => decide (p.1 = cid)).isSome then
    t.map fun p => if p.1 = cid then (cid, r) else p
  else
    t ++ [(cid, r)]

/-- `ServerConnectionIdGenerator`, minus the shared references it borrows:
the weak back-reference to its connection state (`Option.none` while
dangling) and the buffer of CIDs minted before the hookup. -/
structure SCIG where
  cref : Option Nat
  saved_cids : List Cid
deriving DecidableEq

/-- Result of one `ServerConnectionIdGenerator::generate_cid` call. -/
structure GenRes (G : Type) where
  cid : Option Cid
  scig : SCIG
  g : G
  table : Table

/-- `ServerConnectionIdGenerator::generate_cid`: ask the shared generator;
insert the CID into the table when the weak reference upgrades, otherwise
save it for `set_connection`. -/
def SCIG.generate_cid {C G : Type} (W : World C G) (scig : SCIG) (g : G)
    (t : Table) : GenRes G :=
  let m := W.genCid g
  match m.1 with
  | some cid =>
    match scig.cref with
    | some r => ⟨some cid, scig, m.2, insert_cid cid r t⟩
    | Option.none =>
      ⟨some cid, { scig with saved_cids := scig.saved_cids ++ [cid] }, m.2, t⟩
  | Option.none => ⟨Option.none, scig, m.2, t⟩

/-- `ServerConnectionIdGenerator::set_connection`: drain the saved CIDs into
the table, each mapping to connection `r`, and install the back-reference. -/
def SCIG.set_connection (scig : SCIG) (r : Nat) (t : Table) : SCIG × Table :=
  (⟨some r, []⟩, scig.saved_cids.foldl (fun acc cid => insert_cid cid r acc) t)

/-- Result of the CID minting the engine performs during construction. -/
structure MintRes (G : Type) where
  scig : SCIG
  g : G
  table : Table
  minted : List (Option Cid)

/-- The engine asks the per-connection generator for `n` CIDs while
`Connection::new_server` runs. -/
def mintLoop {C G : Type} (W : World C G) :
    Nat → SCIG → G → Table → MintRes G
  | 0, scig, g, t => ⟨scig, g, t, []⟩
  | Nat.succ n, scig, g, t =>
    let r := SCIG.generate_cid W scig g t
    let rest := mintLoop W n r.scig r.g r.table
    ⟨rest.scig, rest.g, rest.table, r.cid :: rest.minted⟩

/-- The server.  Immutable configuration is reduced to what the embedded
claims read: the configured version set (`conn_params.get_versions().all()`)
and the address-validation policy.  The mutable parts are the shared
generator state, the connection store/table pair and a counter for fresh
reference ids. -/
structure Server (C G : Type) where
  versions : List Version
  policy : ValidateAddress
  gen : G
  store : List (Nat × SCS C)
  table : Table
  nextRef : Nat

/-- `Server::new`: a fresh server holds no connections and validates
addresses with policy `Never`. -/
def Server.new {C G : Type} (versions : List Version) (g : G) : Server C G :=
  ⟨versions, .Never, g, [], [], 0⟩

/-- `Server::set_validation`. -/
def Server.set_validation {C G : Type} (s : Server C G) (v : ValidateAddress) :
    Server C G :=
  { s with policy := v }

/-- Dereference a connection reference id in the store. -/
def lookupStore {C : Type} (store : List (Nat × SCS C)) (r : Nat) :
    Option (SCS C) :=
  (store.find? fun p => decide (p.1 = r)).map (·.2)

/-- Mutate the connection state behind reference id `r`. -/
def updateStore {C : Type} (store : List (Nat × SCS C)) (r : Nat)
    (v : SCS C) : List (Nat × SCS C) :=
  store.map fun p => if p.1 = r then (r, v) else p

/-- `Server::connection`: the table lookup by the packet's DCID. -/
def Server.connection {C G : Type} (s : Server C G) (cid : Cid) : Option Nat :=
  lookupTable s.table cid

/-- Well-formedness: every reference id the table holds dereferences in the
store.  In Rust this is automatic (the table owns an `Rc` to each state); a
dangling reference is the one situation the embedding marks with an error. -/
def WF {C G : Type} (s : Server C G) : Prop :=
  ∀ p ∈ s.table, (lookupStore s.store p.2).isSome = true

/-- Deliver a datagram (or a scan tick) to the connection behind `r`:
`c.borrow_mut().process(dgram, now)` on a table hit. -/
def processRef {C G : Type} (W : World C G) (s : Server C G) (r : Nat)
    (dg : Option Datagram) (now : Instant) :
    Except String (Output × Server C G) :=
  match lookupStore s.store r with
  | some scs =>
    let pr := SCS.process W scs dg now
    Except.ok (pr.2, { s with store := updateStore s.store r pr.1 })
  | Option.none => Except.error "dangling connection reference"

/-- The scan `connections.values().find_map(...)` used for attempt
deduplication: the first table value whose state carries this attempt key.
A connection appears once per CID, matching `HashMap::values`. -/
def findAttempt {C : Type} (store : List (Nat × SCS C)) (t : Table)
    (key : AttemptKey) : Option Nat :=
  (t.find? fun p =>
    match lookupStore store p.2 with
    | some scs => decide (scs.active_attempt = some key)
    | Option.none => false).map (·.2)

/-- `Server::handle_0rtt`: deliver to the in-flight attempt keyed by the
client-chosen DCID, or drop. -/
def handle_0rtt {C G : Type} (W : World C G) (s : Server C G) (d : Datagram)
    (dcid : Cid) (now : Instant) : Except String (Output × Server C G) :=
  match findAttempt s.store s.table ⟨d.src, dcid⟩ with
  | some r => processRef W s r (some d) now
  | Option.none => Except.ok (Output.none, s)

/-- `Server::accept_connection`: build a per-connection CID allocator with a
dangling back-reference, construct the engine (which mints CIDs through it),
and on success wrap the engine with the attempt key, link the allocator
(draining the saved CIDs into the table) and deliver the triggering
datagram.  Construction failure drops the datagram. -/
def accept_connection {C G : Type} (W : World C G) (s : Server C G)
    (key : AttemptKey) (ini : InitialDetails) (d : Datagram) (now : Instant) :
    Except String (Output × Server C G) :=
  let m := mintLoop W W.mintRequests ⟨Option.none, []⟩ s.gen s.table
  match W.newServer ini.version m.minted with
  | Option.none => Except.ok (Output.none, { s with gen := m.g })
  | some c0 =>
    let r := s.nextRef
    let scs : SCS C := ⟨c0, some key⟩
    let st := SCIG.set_connection m.scig r m.table
    let store1 := s.store ++ [(r, scs)]
    let pr := SCS.process W scs (some d) now
    Except.ok (pr.2,
      { s with gen := m.g, table := st.2,
               store := updateStore store1 r pr.1, nextRef := r + 1 })

/-- `Server::connection_attempt`: compute the attempt key, deliver a
duplicated Initial to the connection already handling this attempt, or
accept a new connection. -/
def connection_attempt {C G : Type} (W : World C G) (s : Server C G)
    (ini : InitialDetails) (d : Datagram) (orig_dcid : Option Cid)
    (now : Instant) : Except String (Output × Server C G) :=
  let key : AttemptKey := ⟨d.src, orig_dcid.getD ini.dst_cid⟩
  match findAttempt s.store s.table key with
  | some r => processRef W s r (some d) now
  | Option.none => accept_connection W s key ini d now

/-- `Server::handle_initial`: consult the address validator; drop on
`Invalid`, continue on `Pass`/`ValidRetry`, and on `Validate` mint a token,
obtain a fresh CID and send a Retry, dropping on any failure. -/
def handle_initial {C G : Type} (W : World C G) (s : Server C G)
    (ini : InitialDetails) (d : Datagram) (now : Instant) :
    Except String (Output × Server C G) :=
  match validate s.policy ini.token d.src now with
  | .Invalid => Except.ok (Output.none, s)
  | .Pass => connection_attempt W s ini d Option.none now
  | .ValidRetry odcid => connection_attempt W s ini d (some odcid) now
  | .Validate =>
    match W.mintToken ini.dst_cid d.src now with
    | Option.none => Except.ok (Output.none, s)
    | some token =>
      let m := W.genCid s.gen
      let s1 := { s with gen := m.2 }
      match m.1 with
      | some new_dcid =>
        match W.encRetry ini.version ini.src_cid new_dcid token ini.dst_cid with
        | some p =>
          Except.ok (Output.datagram ⟨d.dst, d.src, d.tos, p⟩, s1)
        | Option.none => Except.ok (Output.none, s1)
      | Option.none => Except.ok (Output.none, s1)

/-- The unsupported-version test of `process_input`:
`packet_type == OtherVersion || (packet_type == Initial &&
!versions.contains(&packet.version().unwrap()))`, with the short-circuit and
the `unwrap` panic site kept. -/
def unsupportedVersion (p : PublicPacket) (versions : List Version) :
    Except String Bool :=
  if p.ptype = PacketType.otherVersion then Except.ok true
  else if p.ptype = PacketType.initial then
    match p.version with
    | some v => Except.ok (decide (v ∉ versions))
    | Option.none => Except.error "process_input: version().unwrap() on None"
  else Except.ok false

/-- `Server::process_input`: decode the first header, try the table fast
path, drop unknown short-header packets, answer unsupported versions with
Version Negotiation (or drop short ones), and dispatch Initials and 0-RTT;
anything else is dropped.  The `OtherVersion` arm of the final match is the
source's `unreachable!()`. -/
def process_input {C G : Type} (W : World C G) (s : Server C G) (d : Datagram)
    (now : Instant) : Except String (Output × Server C G) :=
  match decode d.payload with
  | Option.none => Except.ok (Output.none, s)
  | some packet =>
    match Server.connection s packet.dcid with
    | some r => processRef W s r (some d) now
    | Option.none =>
      if packet.ptype = PacketType.short then Except.ok (Output.none, s)
      else
        match unsupportedVersion packet s.versions with
        | Except.error e => Except.error e
        | Except.ok true =>
          if d.payload.length < MIN_INITIAL_PACKET_SIZE then
            Except.ok (Output.none, s)
          else
            Except.ok (Output.datagram
              ⟨d.dst, d.src, d.tos,
               versionNegotiation packet.scid packet.dcid packet.wireVersion
                 s.versions⟩, s)
        | Except.ok false =>
          match packet.ptype with
          | PacketType.initial =>
            if d.payload.length < MIN_INITIAL_PACKET_SIZE then
              Except.ok (Output.none, s)
            else
              match InitialDetails.new packet with
              | Except.error e => Except.error e
              | Except.ok ini => handle_initial W s ini d now
          | PacketType.zeroRtt => handle_0rtt W s d packet.dcid now
          | PacketType.otherVersion =>
            Except.error "process_input: unreachable OtherVersion arm"
          | _ => Except.ok (Output.none, s)

/-- The body of `Server::process_next_output`: walk the table values,
driving each connection with no input; stop at the first datagram, fold
callback deadlines by minimum, and finish with `Callback(min)` or `None`. -/
def scanLoop {C G : Type} (W : World C G) :
    List Nat → Server C G → Instant → Option Instant →
    Except String (Output × Server C G)
  | [], s, _, cb =>
    Except.ok (match cb with
               | some t => Output.callback t
               | Option.none => Output.none, s)
  | r :: rest, s, now, cb =>
    match processRef W s r Option.none now with
    | Except.error e => Except.error e
    | Except.ok (out, s') =>
      match out with
      | Output.none => scanLoop W rest s' now cb
      | Output.datagram d => Except.ok (Output.datagram d, s')
      | Output.callback next =>
        scanLoop W rest s' now
          (some (match cb with
                 | some previous => min previous next
                 | Option.none => next))

/-- `Server::process_next_output`. -/
def process_next_output {C G : Type} (W : World C G) (s : Server C G)
    (now : Instant) : Except String (Output × Server C G) :=
  scanLoop W (s.table.map (·.2)) s now Option.none

/-- The clean-up at the end of `Server::process`: drop every table entry
whose connection state is `Closed`, after which any state no table entry
references any more loses its last `Rc` and is dropped from the store. -/
def gc {C G : Type} (W : World C G) (s : Server C G) : Server C G :=
  let table' := s.table.filter fun p =>
    match lookupStore s.store p.2 with
    | some scs => !(W.stateC scs.c).isClosed
    | Option.none => false
  { s with table := table',
           store := s.store.filter fun q =>
             (table'.find? fun p => decide (p.2 = q.1)).isSome }

/-- `Server::process`: feed the input datagram through triage; the scan runs
only when that produced `Output::None` (`Output::or_else`, modelled from the
spec: the combinator yields its receiver unless it is `None`); finish by
evicting closed connections. -/
def Server.process {C G : Type} (W : World C G) (s : Server C G)
    (dgram : Option Datagram) (now : Instant) :
    Except String (Output × Server C G) :=
  match (match dgram with
         | some d => process_input W s d now
         | Option.none => Except.ok (Output.none, s)) with
  | Except.error e => Except.error e
  | Except.ok (out, s1) =>
    match (match out with
           | Output.none => process_next_output W s1 now
           | x => Except.ok (x, s1)) with
    | Except.error e => Except.error e
    | Except.ok (out2, s2) => Except.ok (out2, gc W s2)

/-- The output of a driver call, discarding the server state. -/
def outputOf {C G : Type} (e : Except String (Output × Server C G)) :
    Option Output :=
  e.toOption.map (·.1)

/-- Spec-side fold over a list of per-connection outputs, written from the
claim's words: the first datagram wins; otherwise callback deadlines fold by
minimum; otherwise nothing. -/
def foldOutputs : List Output → Option Instant → Output
  | [], cb =>
    match cb with
    | some t => Output.callback t
    | Option.none => Output.none
  | Output.none :: rest, cb => foldOutputs rest cb
  | Output.datagram d :: _, _ => Output.datagram d
  | Output.callback t :: rest, cb =>
    foldOutputs rest (some (match cb with
                            | some previous => min previous t
                            | Option.none => t))

/-- Run every listed connection once with no input, collecting the outputs
in order (the hypothetical full scan, with no early stop). -/
def runSeq {C G : Type} (W : World C G) :
    List Nat → Server C G → Instant →
    Except String (List Output × Server C G)
  | [], s, _ => Except.ok ([], s)
  | r :: rest, s, now =>
    match processRef W s r Option.none now with
    | Except.error e => Except.error e
    | Except.ok (out, s') =>
      match runSeq W rest s' now with
      | Except.error e => Except.error e
      | Except.ok (outs, s'') => Except.ok (out :: outs, s'')

/-- The invariant of claim C7: the attempt key is present exactly while the
engine is in `Handshaking` or earlier. -/
def attemptInv {C G : Type} (W : World C G) (scs : SCS C) : Prop :=
  scs.active_attempt.isSome = true ↔ (W.stateC scs.c).rank ≤ 1

/-- The sanity property of claim C4: every table entry dereferences to a
connection state that is not `Closed`. -/
def noClosedInTable {C G : Type} (W : World C G) (s : Server C G) : Prop :=
  ∀ p ∈ s.table,
    ∃ scs, lookupStore s.store p.2 = some scs ∧
           (W.stateC scs.c).isClosed = false

/-- A trivial concrete world used to instantiate universally quantified
results: a unit engine that stays in `Init` and produces nothing, and a
generator that always mints the CID `[50]`. -/
def unitWorld : World Unit Unit where
  newServer := fun _ _ => some ()
  mintRequests := 1
  stepC := fun c _ _ => (c, Output.none)
  stateC := fun _ => State.Init
  genCid := fun g => (some [50], g)
  mintToken := fun o a t => some (a :: t :: o)
  encRetry := fun _ _ _ tok _ => some (9 :: tok)

/-- A concrete world whose engines always have an outbound datagram pending
and sit in `Handshaking`. -/
def c8World : World Nat Unit where
  newServer := fun _ _ => some 0
  mintRequests := 1
  stepC := fun c _ _ => (c + 1, Output.datagram ⟨9, 9, 0, [1, 2, 3]⟩)
  stateC := fun _ => State.Handshaking
  genCid := fun g => (some [50], g)
  mintToken := fun o a t => some (a :: t :: o)
  encRetry := fun _ _ _ tok _ => some (9 :: tok)

/-- A server holding one connection (reference 0, CID `[9]`). -/
def c8Server : Server Nat Unit :=
  ⟨[1], ValidateAddress.Never, (), [(0, ⟨0, Option.none⟩)], [([9], 0)], 1⟩

/-- A 5-byte datagram whose first packet header is an Initial (version 1,
empty DCID and SCID). -/
def c8Dgram : Datagram := ⟨0, 1, 0, [0, 1, 0, 0, 0]⟩

/-- A 1200-byte datagram carrying an Initial with version 2, DCID `[7]`,
SCID `[8]` and an empty token. -/
def c6Dgram : Datagram :=
  ⟨0, 1, 0, 0 :: 2 :: 1 :: 7 :: 1 :: 8 :: 0 :: List.replicate 1193 0⟩

/-- A fresh server configured with version set `[1]`. -/
def c6Server : Server Unit Unit := Server.new [1] ()

/-- A server configured to always validate addresses. -/
def c5Server : Server Unit Unit :=
  Server.set_validation (Server.new [1] ()) ValidateAddress.Always

/-- A 1200-byte datagram carrying an Initial with version 1, DCID `[7]`,
SCID `[8]` and an empty token. -/
def c5Dgram : Datagram :=
  ⟨0, 1, 0, 0 :: 1 :: 1 :: 7 :: 1 :: 8 :: 0 :: List.replicate 1193 0⟩

/-- A world whose engine answers its first call with `Callback 5` and later
calls with `Callback 3`, staying in `Handshaking`. -/
def c1World : World Nat Unit where
  newServer := fun _ _ => some 0
  mintRequests := 1
  stepC := fun c _ _ =>
    (c + 1, if c = 0 then Output.callback 5 else Output.callback 3)
  stateC := fun _ => State.Handshaking
  genCid := fun g => (some [50], g)
  mintToken := fun o a t => some (a :: t :: o)
  encRetry := fun _ _ _ tok _ => some (9 :: tok)

/-- A server holding one connection (reference 0) reachable under CID
`[7]`. -/
def c1Server : Server Nat Unit :=
  ⟨[1], ValidateAddress.Never, (), [(0, ⟨0, Option.none⟩)], [([7], 0)], 1⟩

/-- `c1Server` after its connection consumed one input datagram. -/
def c1ServerMid : Server Nat Unit :=
  ⟨[1], ValidateAddress.Never, (), [(0, ⟨1, Option.none⟩)], [([7], 0)], 1⟩

/-- A datagram routed to CID `[7]` (the fast path). -/
def c1Dgram : Datagram := ⟨0, 1, 0, [0, 1, 1, 7, 0, 0]⟩

/-- A world for the duplicate-Initial scenario: the engine always replies
with a datagram and stays in `Handshaking`. -/
def c2World : World Nat Unit where
  newServer := fun _ _ => some 0
  mintRequests := 1
  stepC := fun c _ _ => (c + 1, Output.datagram ⟨1, 0, 0, [42]⟩)
  stateC := fun _ => State.Handshaking
  genCid := fun g => (some [50], g)
  mintToken := fun o a t => some (a :: t :: o)
  encRetry := fun _ _ _ tok _ => some (9 :: tok)

/-- The duplicate-Initial datagram (1200 bytes, version 1, DCID `[7]`, SCID
`[8]`, empty token). -/
def c2Dgram : Datagram :=
  ⟨0, 1, 0, 0 :: 1 :: 1 :: 7 :: 1 :: 8 :: 0 :: List.replicate 1193 0⟩

/-- The server state after the first delivery of `c2Dgram` to a fresh
server: one accepted connection (reference 0, engine counter 1) with an
active attempt for `(0, [7])`, reachable under the minted CID `[50]`. -/
def c2S1 : Server Nat Unit :=
  ⟨[1], ValidateAddress.Never, (), [(0, ⟨1, some ⟨0, [7]⟩⟩)], [([50], 0)], 1⟩

/-- The server state after the second delivery: the same single connection,
its engine stepped once more. -/
def c2S2 : Server Nat Unit :=
  ⟨[1], ValidateAddress.Never, (), [(0, ⟨2, some ⟨0, [7]⟩⟩)], [([50], 0)], 1⟩

/-! ## Table and store lemmas -/

theorem lookupTable_mem {t : Table} {cid : Cid} {r : Nat}
    (h : lookupTable t cid = some r) : (cid, r) ∈ t := by
  unfold lookupTable at h
  cases hf : t.find? (fun p => decide (p.1 = cid)) with
  | none => rw [hf] at h; simp at h
  | some a =>
    rw [hf] at h
    simp only [Option.map_some'] at h
    injection h with h2
    have hm := List.mem_of_find?_eq_some hf
    have hp := List.find?_some hf
    simp only [decide_eq_true_eq] at hp
    obtain ⟨a1, a2⟩ := a
    simp only at hp h2
    subst hp; subst h2
    exact hm

theorem lookupTable_eq_none {t : Table} {cid : Cid}
    (h : lookupTable t cid = Option.none) : ∀ p ∈ t, p.1 ≠ cid := by
  unfold lookupTable at h
  rw [Option.map_eq_none'] at h
  rw [List.find?_eq_none] at h
  intro p hp
  have := h p hp
  simpa using this

theorem lookupTable_none_of_not_mem {t : Table} {cid : Cid}
    (h : ∀ p ∈ t, p.1 ≠ cid) : lookupTable t cid = Option.none := by
  unfold lookupTable
  rw [Option.map_eq_none', List.find?_eq_none]
  intro p hp
  simpa using h p hp

theorem insert_cid_lookup_self (cid : Cid) (r : Nat) (t : Table) :
    lookupTable (insert_cid cid r t) cid = some r := by
  unfold insert_cid
  split
  next hsome =>
    unfold lookupTable
    rw [List.find?_map]
    have hpred : ((fun p => decide (p.1 = cid)) ∘
        (fun p : Cid × Nat => if p.1 = cid then (cid, r) else p))
        = fun p : Cid × Nat => decide (p.1 = cid) := by
      funext p
      by_cases hp : p.1 = cid <;> simp [Function.comp, hp]
    rw [hpred]
    obtain ⟨a, ha⟩ := Option.isSome_iff_exists.mp hsome
    have hp := List.find?_some ha
    simp only [decide_eq_true_eq] at hp
    rw [ha]
    simp [hp]
  next hnone =>
    unfold lookupTable
    rw [List.find?_append]
    have h0 : t.find? (fun p => decide (p.1 = cid)) = Option.none := by
      rw [← Option.not_isSome_iff_eq_none]
      simpa using hnone
    simp [h0]

theorem insert_cid_lookup_ne {x cid : Cid} (hx : x ≠ cid) (r : Nat)
    (t : Table) : lookupTable (insert_cid cid r t) x = lookupTable t x := by
  unfold insert_cid
  split
  next hsome =>
    unfold lookupTable
    rw [List.find?_map]
    have hpred : ((fun p => decide (p.1 = x)) ∘
        (fun p : Cid × Nat => if p.1 = cid then (cid, r) else p))
        = fun p : Cid × Nat => decide (p.1 = x) := by
      funext p
      by_cases hp : p.1 = cid
      · simp [Function.comp, hp, (Ne.symm hx : cid ≠ x)]
      · simp [Function.comp, hp]
    rw [hpred]
    cases hf : t.find? (fun p => decide (p.1 = x)) with
    | none => simp
    | some a =>
      have hp := List.find?_some hf
      simp only [decide_eq_true_eq] at hp
      have : (if a.1 = cid then (cid, r) else a) = a := by
        rw [if_neg]; rw [hp]; exact hx
      simp [this]
  next hnone =>
    unfold lookupTable
    rw [List.find?_append]
    have h1 : [(cid, r)].find? (fun p => decide (p.1 = x)) = Option.none := by
      simp [Ne.symm hx]
    simp [h1]

theorem insert_cid_lookup_keep {x : Cid} {r : Nat} {t : Table}
    (h : lookupTable t x = some r) (cid : Cid) :
    lookupTable (insert_cid cid r t) x = some r := by
  by_cases hx : x = cid
  · subst hx; exact insert_cid_lookup_self x r t
  · rw [insert_cid_lookup_ne hx]; exact h

theorem insert_cid_lookup_cases {x cid : Cid} {r ρ : Nat} {t : Table}
    (h : lookupTable (insert_cid cid r t) x = some ρ) :
    ρ = r ∨ lookupTable t x = some ρ := by
  by_cases hx : x = cid
  · subst hx
    rw [insert_cid_lookup_self] at h
    injection h with h
    exact Or.inl h.symm
  · rw [insert_cid_lookup_ne hx] at h
    exact Or.inr h

theorem foldl_insert_lookup_keep {x : Cid} {r : Nat} {t : Table}
    (L : List Cid) (h : lookupTable t x = some r) :
    lookupTable (L.foldl (fun acc c => insert_cid c r acc) t) x = some r := by
  induction L generalizing t with
  | nil => exact h
  | cons c L ih => exact ih (insert_cid_lookup_keep h c)

theorem foldl_insert_lookup_mem {cid : Cid} {r : Nat} {t : Table}
    {L : List Cid} (h : cid ∈ L) :
    lookupTable (L.foldl (fun acc c => insert_cid c r acc) t) cid = some r := by
  induction L generalizing t with
  | nil => cases h
  | cons c L ih =>
    rcases List.mem_cons.mp h with hc | hc
    · subst hc
      by_cases hm : cid ∈ L
      · exact ih hm
      · exact foldl_insert_lookup_keep L (insert_cid_lookup_self cid r t)
    · exact ih hc

theorem foldl_insert_lookup_cases {x : Cid} {r ρ : Nat} {t : Table}
    {L : List Cid}
    (h : lookupTable (L.foldl (fun acc c => insert_cid c r acc) t) x = some ρ) :
    ρ = r ∨ lookupTable t x = some ρ := by
  induction L generalizing t with
  | nil => exact Or.inr h
  | cons c L ih =>
    rcases ih h with h' | h'
    · exact Or.inl h'
    · exact insert_cid_lookup_cases h'

theorem foldl_insert_lookup_not_mem {x : Cid} {r : Nat} {t : Table}
    {L : List Cid} (h : x ∉ L) :
    lookupTable (L.foldl (fun acc c => insert_cid c r acc) t) x
      = lookupTable t x := by
  induction L generalizing t with
  | nil => rfl
  | cons c L ih =>
    have hx : x ≠ c := fun he => h (he ▸ List.mem_cons_self c L)
    rw [List.foldl_cons,
        ih (fun hm => h (List.mem_cons_of_mem c hm)),
        insert_cid_lookup_ne hx]

theorem lookupStore_isSome_iff {C : Type} {store : List (Nat × SCS C)}
    {r : Nat} :
    (lookupStore store r).isSome = true ↔ r ∈ store.map Prod.fst := by
  unfold lookupStore
  rw [Option.isSome_map']
  rw [List.find?_isSome]
  constructor
  · rintro ⟨p, hp, hpred⟩
    simp only [decide_eq_true_eq] at hpred
    exact hpred ▸ List.mem_map_of_mem Prod.fst hp
  · intro hr
    obtain ⟨p, hp, hpr⟩ := List.mem_map.mp hr
    exact ⟨p, hp, by simp [hpr]⟩

theorem updateStore_ids {C : Type} (store : List (Nat × SCS C)) (r : Nat)
    (v : SCS C) :
    (updateStore store r v).map Prod.fst = store.map Prod.fst := by
  unfold updateStore
  rw [List.map_map]
  apply List.map_congr_left
  intro p _
  by_cases hp : p.1 = r <;> simp [Function.comp, hp]

theorem lookupStore_update_same {C : Type} {store : List (Nat × SCS C)}
    {r : Nat} (h : (lookupStore store r).isSome = true) (v : SCS C) :
    lookupStore (updateStore store r v) r = some v := by
  unfold lookupStore updateStore
  rw [List.find?_map]
  have hpred : ((fun p => decide (p.1 = r)) ∘
      (fun p : Nat × SCS C => if p.1 = r then (r, v) else p))
      = fun p : Nat × SCS C => decide (p.1 = r) := by
    funext p
    by_cases hp : p.1 = r <;> simp [Function.comp, hp]
  rw [hpred]
  unfold lookupStore at h
  rw [Option.isSome_map'] at h
  obtain ⟨a, ha⟩ := Option.isSome_iff_exists.mp h
  have hp := List.find?_some ha
  simp only [decide_eq_true_eq] at hp
  rw [ha]
  simp [hp]

theorem lookupStore_update_ne {C : Type} {store : List (Nat × SCS C)}
    {x r : Nat} (hx : x ≠ r) (v : SCS C) :
    lookupStore (updateStore store r v) x = lookupStore store x := by
  unfold lookupStore updateStore
  rw [List.find?_map]
  have hpred : ((fun p => decide (p.1 = x)) ∘
      (fun p : Nat × SCS C => if p.1 = r then (r, v) else p))
      = fun p : Nat × SCS C => decide (p.1 = x) := by
    funext p
    by_cases hp : p.1 = r
    · simp [Function.comp, hp, (Ne.symm hx : r ≠ x)]
    · simp [Function.comp, hp]
  rw [hpred]
  cases hf : store.find? (fun p => decide (p.1 = x)) with
  | none => simp
  | some a =>
    have hp := List.find?_some hf
    simp only [decide_eq_true_eq] at hp
    have : (if a.1 = r then (r, v) else a) = a := by
      rw [if_neg]; rw [hp]; exact hx
    simp [this]

theorem lookupStore_cons_self {C : Type} {q : Nat × SCS C}
    {store : List (Nat × SCS C)} {r : Nat} (h : q.1 = r) :
    lookupStore (q :: store) r = some q.2 := by
  unfold lookupStore
  simp [List.find?, h]

theorem lookupStore_cons_ne {C : Type} {q : Nat × SCS C}
    {store : List (Nat × SCS C)} {r : Nat} (h : ¬q.1 = r) :
    lookupStore (q :: store) r = lookupStore store r := by
  unfold lookupStore
  simp [List.find?, h]

theorem lookupStore_filter_keep {C : Type} {store : List (Nat × SCS C)}
    {Q : Nat × SCS C → Bool} {r : Nat}
    (h : ∀ q ∈ store, q.1 = r → Q q = true) :
    lookupStore (store.filter Q) r = lookupStore store r := by
  induction store with
  | nil => rfl
  | cons q store ih =>
    have ih' := ih fun p hp hpr => h p (List.mem_cons_of_mem q hp) hpr
    by_cases hq : q.1 = r
    · rw [List.filter_cons_of_pos (h q (List.mem_cons_self q store) hq)]
      rw [lookupStore_cons_self hq, lookupStore_cons_self hq]
    · cases hQ : Q q
      · rw [List.filter_cons_of_neg (by simp [hQ])]
        rw [lookupStore_cons_ne hq]
        exact ih'
      · rw [List.filter_cons_of_pos hQ]
        rw [lookupStore_cons_ne hq, lookupStore_cons_ne hq]
        exact ih'

/-! ## Frame lemmas for the driver -/

theorem processRef_ok {C G : Type} (W : World C G) {s : Server C G} {r : Nat}
    (h : (lookupStore s.store r).isSome = true) (dg : Option Datagram)
    (now : Instant) :
    ∃ scs, lookupStore s.store r = some scs ∧
      processRef W s r dg now =
        Except.ok ((SCS.process W scs dg now).2,
          { s with store :=
              updateStore s.store r (SCS.process W scs dg now).1 }) := by
  obtain ⟨scs, hscs⟩ := Option.isSome_iff_exists.mp h
  refine ⟨scs, hscs, ?_⟩
  unfold processRef
  rw [hscs]

theorem processRef_frame {C G : Type} {W : World C G} {s s' : Server C G}
    {r : Nat} {dg : Option Datagram} {now : Instant} {out : Output}
    (h : processRef W s r dg now = Except.ok (out, s')) :
    s'.table = s.table ∧ s'.store.map Prod.fst = s.store.map Prod.fst ∧
    s'.nextRef = s.nextRef ∧ s'.versions = s.versions ∧
    s'.policy = s.policy ∧ s'.gen = s.gen := by
  unfold processRef at h
  cases hl : lookupStore s.store r with
  | none => rw [hl] at h; cases h
  | some scs =>
    rw [hl] at h
    injection h with h
    injection h with h1 h2
    subst h2
    exact ⟨rfl, updateStore_ids s.store r _, rfl, rfl, rfl, rfl⟩

theorem WF_of_same {C G : Type} {s s' : Server C G} (hwf : WF s)
    (ht : s'.table = s.table)
    (hst : s'.store.map Prod.fst = s.store.map Prod.fst) : WF s' := by
  intro p hp
  rw [lookupStore_isSome_iff, hst, ← lookupStore_isSome_iff]
  exact hwf p (ht ▸ hp)

/-- The scan both runs without a panic and computes, output-wise, the
spec-side fold of the outputs the listed connections produce in order. -/
theorem scanLoop_spec {C G : Type} (W : World C G) (refs : List Nat)
    (s : Server C G) (now : Instant)
    (href : ∀ r ∈ refs, r ∈ s.store.map Prod.fst) :
    ∃ outs s'', runSeq W refs s now = Except.ok (outs, s'') ∧
      s''.table = s.table ∧ s''.store.map Prod.fst = s.store.map Prod.fst ∧
      s''.nextRef = s.nextRef ∧ s''.versions = s.versions ∧
      s''.policy = s.policy ∧
      ∀ cb, ∃ s', scanLoop W refs s now cb =
          Except.ok (foldOutputs outs cb, s') ∧
        s'.table = s.table ∧ s'.store.map Prod.fst = s.store.map Prod.fst ∧
        s'.nextRef = s.nextRef ∧ s'.versions = s.versions ∧
        s'.policy = s.policy := by
  induction refs generalizing s with
  | nil =>
    exact ⟨[], s, rfl, rfl, rfl, rfl, rfl, rfl,
      fun cb => ⟨s, rfl, rfl, rfl, rfl, rfl, rfl⟩⟩
  | cons r rest ih =>
    have hr : r ∈ s.store.map Prod.fst := href r (List.mem_cons_self r rest)
    have hsome : (lookupStore s.store r).isSome = true :=
      lookupStore_isSome_iff.mpr hr
    obtain ⟨scs, hscs, heq⟩ := processRef_ok W hsome Option.none now
    have hids : ({ s with
        store := updateStore s.store r (SCS.process W scs Option.none now).1 } :
        Server C G).store.map Prod.fst = s.store.map Prod.fst :=
      updateStore_ids s.store r _
    have href1 : ∀ q ∈ rest, q ∈ ({ s with
        store := updateStore s.store r (SCS.process W scs Option.none now).1 } :
        Server C G).store.map Prod.fst := by
      intro q hq
      rw [hids]
      exact href q (List.mem_cons_of_mem r hq)
    obtain ⟨outs, s'', hrun, ht, hst, hnr, hv, hpo, hscan⟩ := ih _ href1
    cases hout : (SCS.process W scs Option.none now).2 with
    | none =>
      refine ⟨Output.none :: outs, s'', ?_, ht, by rw [hst, hids], hnr, hv,
        hpo, ?_⟩
      · simp only [runSeq, heq, hout, hrun]
      · intro cb
        obtain ⟨s', hs', h1, h2, h3, h4, h5⟩ := hscan cb
        refine ⟨s', ?_, h1, by rw [h2, hids], h3, h4, h5⟩
        simp only [scanLoop, heq, hout, foldOutputs]
        exact hs'
    | datagram d =>
      refine ⟨Output.datagram d :: outs, s'', ?_, ht, by rw [hst, hids], hnr,
        hv, hpo, ?_⟩
      · simp only [runSeq, heq, hout, hrun]
      · intro cb
        refine ⟨{ s with
          store := updateStore s.store r (SCS.process W scs Option.none now).1 },
          ?_, rfl, hids, rfl, rfl, rfl⟩
        simp only [scanLoop, heq, hout, foldOutputs]
    | callback t =>
      refine ⟨Output.callback t :: outs, s'', ?_, ht, by rw [hst, hids], hnr,
        hv, hpo, ?_⟩
      · simp only [runSeq, heq, hout, hrun]
      · intro cb
        obtain ⟨s', hs', h1, h2, h3, h4, h5⟩ :=
          hscan (some (match cb with
                       | some previous => min previous t
                       | Option.none => t))
        refine ⟨s', ?_, h1, by rw [h2, hids], h3, h4, h5⟩
        simp only [scanLoop, heq, hout, foldOutputs]
        exact hs'

/-- The clean-up never leaves a `Closed` connection reachable from the
table. -/
theorem gc_sound {C G : Type} (W : World C G) (s : Server C G) :
    noClosedInTable W (gc W s) := by
  intro p hp
  have hp' : p ∈ s.table.filter _ := hp
  have hmem := List.mem_filter.mp hp'
  obtain ⟨hpt, hpred⟩ := hmem
  cases hl : lookupStore s.store p.2 with
  | none => rw [hl] at hpred; cases hpred
  | some scs =>
    rw [hl] at hpred
    refine ⟨scs, ?_, by simpa using hpred⟩
    have hkeep : lookupStore ((gc W s).store) p.2 = lookupStore s.store p.2 := by
      apply lookupStore_filter_keep
      intro q hq hqr
      rw [List.find?_isSome]
      exact ⟨p, hp, by simp [hqr]⟩
    rw [hkeep, hl]

theorem gc_frame {C G : Type} (W : World C G) (s : Server C G) :
    (gc W s).nextRef = s.nextRef ∧ (gc W s).versions = s.versions ∧
    (gc W s).policy = s.policy ∧ (gc W s).gen = s.gen ∧
    (∀ i ∈ (gc W s).store.map Prod.fst, i ∈ s.store.map Prod.fst) := by
  refine ⟨rfl, rfl, rfl, rfl, ?_⟩
  intro i hi
  obtain ⟨q, hq, hqi⟩ := List.mem_map.mp hi
  exact hqi ▸ List.mem_map_of_mem Prod.fst (List.mem_of_mem_filter hq)

/-- Whatever `process` returns, the final state is the clean-up of some
intermediate state. -/
theorem process_shape {C G : Type} {W : World C G} {s s2 : Server C G}
    {dg : Option Datagram} {now : Instant} {o : Output}
    (h : Server.process W s dg now = Except.ok (o, s2)) :
    ∃ s', s2 = gc W s' := by
  unfold Server.process at h
  split at h
  next => cases h
  next e out s1 heq =>
    split at h
    next => cases h
    next e2 out2 s2' heq2 =>
      injection h with h
      injection h with h1 h2
      exact ⟨s2', h2.symm⟩

/-! ## Equation lemmas for the allocator and the accept flow -/

theorem generate_cid_eq_none {C G : Type} (W : World C G) (scig : SCIG)
    (g : G) (t : Table) (h : (W.genCid g).1 = Option.none) :
    SCIG.generate_cid W scig g t = ⟨Option.none, scig, (W.genCid g).2, t⟩ := by
  simp only [SCIG.generate_cid, h]

theorem generate_cid_eq_unlinked {C G : Type} (W : World C G) {scig : SCIG}
    (g : G) (t : Table) {cid : Cid} (h : (W.genCid g).1 = some cid)
    (h2 : scig.cref = Option.none) :
    SCIG.generate_cid W scig g t
      = ⟨some cid, { scig with saved_cids := scig.saved_cids ++ [cid] },
         (W.genCid g).2, t⟩ := by
  simp only [SCIG.generate_cid, h, h2]

theorem generate_cid_eq_linked {C G : Type} (W : World C G) {scig : SCIG}
    (g : G) (t : Table) {cid : Cid} {r : Nat} (h : (W.genCid g).1 = some cid)
    (h2 : scig.cref = some r) :
    SCIG.generate_cid W scig g t
      = ⟨some cid, scig, (W.genCid g).2, insert_cid cid r t⟩ := by
  simp only [SCIG.generate_cid, h, h2]

theorem mintLoop_succ {C G : Type} (W : World C G) (n : Nat) (scig : SCIG)
    (g : G) (t : Table) :
    mintLoop W (Nat.succ n) scig g t =
      ⟨(mintLoop W n (SCIG.generate_cid W scig g t).scig
          (SCIG.generate_cid W scig g t).g
          (SCIG.generate_cid W scig g t).table).scig,
       (mintLoop W n (SCIG.generate_cid W scig g t).scig
          (SCIG.generate_cid W scig g t).g
          (SCIG.generate_cid W scig g t).table).g,
       (mintLoop W n (SCIG.generate_cid W scig g t).scig
          (SCIG.generate_cid W scig g t).g
          (SCIG.generate_cid W scig g t).table).table,
       (SCIG.generate_cid W scig g t).cid ::
         (mintLoop W n (SCIG.generate_cid W scig g t).scig
            (SCIG.generate_cid W scig g t).g
            (SCIG.generate_cid W scig g t).table).minted⟩ := rfl

/-- While the allocator is unlinked, minting leaves the table alone, keeps
the reference dangling, and buffers exactly the successfully minted CIDs in
order. -/
theorem mintLoop_unlinked {C G : Type} (W : World C G) :
    ∀ (n : Nat) (scig : SCIG) (g : G) (t : Table),
      scig.cref = Option.none →
      (mintLoop W n scig g t).scig.cref = Option.none ∧
      (mintLoop W n scig g t).table = t ∧
      (mintLoop W n scig g t).scig.saved_cids
        = scig.saved_cids ++ (mintLoop W n scig g t).minted.reduceOption := by
  intro n
  induction n with
  | zero =>
    intro scig g t h
    exact ⟨h, rfl, by simp [mintLoop, List.reduceOption_nil]⟩
  | succ n ih =>
    intro scig g t h
    cases hm : (W.genCid g).1 with
    | none =>
      rw [mintLoop_succ, generate_cid_eq_none W scig g t hm]
      dsimp only
      obtain ⟨h1, h2, h3⟩ := ih scig (W.genCid g).2 t h
      exact ⟨h1, h2, by rw [List.reduceOption_cons_of_none]; exact h3⟩
    | some cid =>
      rw [mintLoop_succ, generate_cid_eq_unlinked W g t hm h]
      dsimp only
      obtain ⟨h1, h2, h3⟩ :=
        ih { scig with saved_cids := scig.saved_cids ++ [cid] }
          (W.genCid g).2 t h
      refine ⟨h1, h2, ?_⟩
      rw [List.reduceOption_cons_of_some, h3]
      simp

theorem accept_connection_eq_fail {C G : Type} (W : World C G)
    {s : Server C G} (key : AttemptKey) {ini : InitialDetails} (d : Datagram)
    (now : Instant)
    (h : W.newServer ini.version
      (mintLoop W W.mintRequests ⟨Option.none, []⟩ s.gen s.table).minted
        = Option.none) :
    accept_connection W s key ini d now =
      Except.ok (Output.none,
        { s with gen :=
            (mintLoop W W.mintRequests ⟨Option.none, []⟩ s.gen
              s.table).g }) := by
  simp only [accept_connection, h]

theorem accept_connection_eq_ok {C G : Type} (W : World C G)
    {s : Server C G} (key : AttemptKey) {ini : InitialDetails} (d : Datagram)
    (now : Instant) {c0 : C}
    (h : W.newServer ini.version
      (mintLoop W W.mintRequests ⟨Option.none, []⟩ s.gen s.table).minted
        = some c0) :
    accept_connection W s key ini d now =
      Except.ok ((SCS.process W ⟨c0, some key⟩ (some d) now).2,
        { s with
          gen := (mintLoop W W.mintRequests ⟨Option.none, []⟩ s.gen
            s.table).g,
          table := (SCIG.set_connection
            (mintLoop W W.mintRequests ⟨Option.none, []⟩ s.gen s.table).scig
            s.nextRef
            (mintLoop W W.mintRequests ⟨Option.none, []⟩ s.gen
              s.table).table).2,
          store := updateStore (s.store ++ [(s.nextRef, ⟨c0, some key⟩)])
            s.nextRef (SCS.process W ⟨c0, some key⟩ (some d) now).1,
          nextRef := s.nextRef + 1 }) := by
  simp only [accept_connection, h]

/-! ## Equation lemmas for triage and the driver -/

theorem unsupportedVersion_eq_other {p : PublicPacket} {vs : List Version}
    (hty : p.ptype = PacketType.otherVersion) :
    unsupportedVersion p vs = Except.ok true := by
  simp [unsupportedVersion, hty]

theorem unsupportedVersion_eq_initial {p : PublicPacket} {vs : List Version}
    {v : Version} (hty : p.ptype = PacketType.initial)
    (hv : p.version = some v) :
    unsupportedVersion p vs = Except.ok (decide (v ∉ vs)) := by
  simp [unsupportedVersion, hty, hv]

theorem unsupportedVersion_eq_else {p : PublicPacket} {vs : List Version}
    (h1 : ¬p.ptype = PacketType.otherVersion)
    (h2 : ¬p.ptype = PacketType.initial) :
    unsupportedVersion p vs = Except.ok false := by
  simp [unsupportedVersion, h1, h2]

/-- A decoded packet that is neither `otherVersion` nor `short` carries a
parsed version: the codec only classifies a long-header packet as a typed
one when it recognises the wire version. -/
theorem decode_version_isSome {bs : List Nat} {pkt : PublicPacket}
    (h : decode bs = some pkt) (hne : ¬pkt.ptype = PacketType.otherVersion)
    (hns : ¬pkt.ptype = PacketType.short) : ∃ v, pkt.version = some v := by
  unfold decode at h
  repeat' split at h
  all_goals cases h
  all_goals simp_all

theorem process_input_eq_decode_fail {C G : Type} (W : World C G)
    (s : Server C G) {d : Datagram} (now : Instant)
    (hdec : decode d.payload = Option.none) :
    process_input W s d now = Except.ok (Output.none, s) := by
  simp only [process_input, hdec]

theorem process_input_eq_fastpath {C G : Type} (W : World C G)
    {s : Server C G} {d : Datagram} (now : Instant) {pkt : PublicPacket}
    {r : Nat} (hdec : decode d.payload = some pkt)
    (hhit : Server.connection s pkt.dcid = some r) :
    process_input W s d now = processRef W s r (some d) now := by
  simp only [process_input, hdec, hhit]

theorem process_input_eq_short {C G : Type} (W : World C G)
    {s : Server C G} {d : Datagram} (now : Instant) {pkt : PublicPacket}
    (hdec : decode d.payload = some pkt)
    (hmiss : Server.connection s pkt.dcid = Option.none)
    (hty : pkt.ptype = PacketType.short) :
    process_input W s d now = Except.ok (Output.none, s) := by
  simp only [process_input, hdec, hmiss, hty]
  rfl

theorem process_input_eq_vn_short {C G : Type} (W : World C G)
    {s : Server C G} {d : Datagram} (now : Instant) {pkt : PublicPacket}
    (hdec : decode d.payload = some pkt)
    (hmiss : Server.connection s pkt.dcid = Option.none)
    (hns : ¬pkt.ptype = PacketType.short)
    (hu : unsupportedVersion pkt s.versions = Except.ok true)
    (hlen : d.payload.length < MIN_INITIAL_PACKET_SIZE) :
    process_input W s d now = Except.ok (Output.none, s) := by
  simp only [process_input, hdec, hmiss, hns, hu, hlen]
  simp

theorem process_input_eq_vn {C G : Type} (W : World C G)
    {s : Server C G} {d : Datagram} (now : Instant) {pkt : PublicPacket}
    (hdec : decode d.payload = some pkt)
    (hmiss : Server.connection s pkt.dcid = Option.none)
    (hns : ¬pkt.ptype = PacketType.short)
    (hu : unsupportedVersion pkt s.versions = Except.ok true)
    (hlen : ¬d.payload.length < MIN_INITIAL_PACKET_SIZE) :
    process_input W s d now = Except.ok (Output.datagram
      ⟨d.dst, d.src, d.tos,
       versionNegotiation pkt.scid pkt.dcid pkt.wireVersion s.versions⟩,
      s) := by
  simp only [process_input, hdec, hmiss, hns, hu, hlen]
  simp

theorem process_input_eq_initial_short {C G : Type} (W : World C G)
    {s : Server C G} {d : Datagram} (now : Instant) {pkt : PublicPacket}
    (hdec : decode d.payload = some pkt)
    (hmiss : Server.connection s pkt.dcid = Option.none)
    (hty : pkt.ptype = PacketType.initial)
    (hu : unsupportedVersion pkt s.versions = Except.ok false)
    (hlen : d.payload.length < MIN_INITIAL_PACKET_SIZE) :
    process_input W s d now = Except.ok (Output.none, s) := by
  have hns : ¬pkt.ptype = PacketType.short := by simp [hty]
  simp only [process_input, hdec, hmiss, hns, hu, hty, hlen]
  rfl

theorem process_input_eq_initial {C G : Type} (W : World C G)
    {s : Server C G} {d : Datagram} (now : Instant) {pkt : PublicPacket}
    {v : Version} (hdec : decode d.payload = some pkt)
    (hmiss : Server.connection s pkt.dcid = Option.none)
    (hty : pkt.ptype = PacketType.initial) (hv : pkt.version = some v)
    (hu : unsupportedVersion pkt s.versions = Except.ok false)
    (hlen : ¬d.payload.length < MIN_INITIAL_PACKET_SIZE) :
    process_input W s d now
      = handle_initial W s ⟨pkt.scid, pkt.dcid, pkt.token, v⟩ d now := by
  have hns : ¬pkt.ptype = PacketType.short := by simp [hty]
  have hini : InitialDetails.new pkt
      = Except.ok ⟨pkt.scid, pkt.dcid, pkt.token, v⟩ := by
    simp [InitialDetails.new, hv]
  simp only [process_input, hdec, hmiss, hns, hu, hty, hlen, hini]
  rfl

theorem process_input_eq_0rtt {C G : Type} (W : World C G)
    {s : Server C G} {d : Datagram} (now : Instant) {pkt : PublicPacket}
    (hdec : decode d.payload = some pkt)
    (hmiss : Server.connection s pkt.dcid = Option.none)
    (hty : pkt.ptype = PacketType.zeroRtt)
    (hu : unsupportedVersion pkt s.versions = Except.ok false) :
    process_input W s d now = handle_0rtt W s d pkt.dcid now := by
  have hns : ¬pkt.ptype = PacketType.short := by simp [hty]
  simp only [process_input, hdec, hmiss, hns, hu, hty]
  rfl

theorem process_input_eq_handshake {C G : Type} (W : World C G)
    {s : Server C G} {d : Datagram} (now : Instant) {pkt : PublicPacket}
    (hdec : decode d.payload = some pkt)
    (hmiss : Server.connection s pkt.dcid = Option.none)
    (hty : pkt.ptype = PacketType.handshake)
    (hu : unsupportedVersion pkt s.versions = Except.ok false) :
    process_input W s d now = Except.ok (Output.none, s) := by
  have hns : ¬pkt.ptype = PacketType.short := by simp [hty]
  simp only [process_input, hdec, hmiss, hns, hu, hty]
  rfl

theorem process_eq_datagram {C G : Type} {W : World C G} {s s1 : Server C G}
    {d : Datagram} {now : Instant} {dd : Datagram}
    (hpi : process_input W s d now = Except.ok (Output.datagram dd, s1)) :
    Server.process W s (some d) now
      = Except.ok (Output.datagram dd, gc W s1) := by
  simp only [Server.process, hpi]

theorem process_eq_callback {C G : Type} {W : World C G} {s s1 : Server C G}
    {d : Datagram} {now : Instant} {t : Instant}
    (hpi : process_input W s d now = Except.ok (Output.callback t, s1)) :
    Server.process W s (some d) now
      = Except.ok (Output.callback t, gc W s1) := by
  simp only [Server.process, hpi]

theorem process_eq_scan {C G : Type} {W : World C G} {s s1 s2 : Server C G}
    {d : Datagram} {now : Instant} {o2 : Output}
    (hpi : process_input W s d now = Except.ok (Output.none, s1))
    (hsc : process_next_output W s1 now = Except.ok (o2, s2)) :
    Server.process W s (some d) now = Except.ok (o2, gc W s2) := by
  simp only [Server.process, hpi, hsc]

theorem process_none_eq_scan {C G : Type} {W : World C G} {s s2 : Server C G}
    {now : Instant} {o2 : Output}
    (hsc : process_next_output W s now = Except.ok (o2, s2)) :
    Server.process W s Option.none now = Except.ok (o2, gc W s2) := by
  simp only [Server.process, hsc]

/-! ## Version Negotiation reply structure -/

theorem readChunk_exact (l rest : List Nat) :
    readChunk (l.length :: (l ++ rest)) = some (l, rest) := by
  simp only [readChunk]
  rw [if_pos (by simp)]
  simp

theorem versionNegotiation_norm (a b : Cid) (wv : Nat) (vs : List Version) :
    versionNegotiation a b wv vs
      = b.length :: (b ++ (a.length :: (a ++ vs))) := by
  simp [versionNegotiation]

theorem vnScid_versionNegotiation (a b : Cid) (wv : Nat)
    (vs : List Version) :
    vnScid (versionNegotiation a b wv vs) = some b := by
  unfold vnScid
  rw [versionNegotiation_norm, readChunk_exact]
  rfl

theorem vnDcid_versionNegotiation (a b : Cid) (wv : Nat)
    (vs : List Version) :
    vnDcid (versionNegotiation a b wv vs) = some a := by
  unfold vnDcid
  rw [versionNegotiation_norm, readChunk_exact]
  show (readChunk (a.length :: (a ++ vs))).map (fun p => p.1) = some a
  rw [readChunk_exact]
  rfl

theorem vnVersions_versionNegotiation (a b : Cid) (wv : Nat)
    (vs : List Version) :
    vnVersions (versionNegotiation a b wv vs) = some vs := by
  unfold vnVersions
  rw [versionNegotiation_norm, readChunk_exact]
  show (readChunk (a.length :: (a ++ vs))).map (fun p => p.2) = some vs
  rw [readChunk_exact]
  rfl

/-! ## Claim C4 -/

/-- Claim C4: for every call to `process` (with or without an input
datagram), after the call returns no connection whose engine state is
`Closed` remains reachable from the connection table: every CID that mapped
to such a connection has been removed. -/
theorem c4_closed_evicted {C G : Type} (W : World C G) (s : Server C G)
    (dg : Option Datagram) (now : Instant) (o : Output) (s2 : Server C G)
    (h : Server.process W s dg now = Except.ok (o, s2)) :
    noClosedInTable W s2 := by
  obtain ⟨s', hs'⟩ := process_shape h
  exact hs' ▸ gc_sound W s'

theorem c4_closed_evicted_witness :
    noClosedInTable unitWorld (Server.new (C := Unit) (G := Unit) [] ()) :=
  c4_closed_evicted unitWorld (Server.new [] ()) Option.none 0 Output.none
    (Server.new [] ()) rfl

/-! ## Claim C3 -/

/-- Claim C3: the per-connection CID allocator registers every CID it mints.
Before the allocator is linked (`cref = Option.none`) a minted CID is
buffered in `saved_cids` and the table is untouched; `set_connection` drains
the buffer exactly once, mapping every saved CID to the connection, and
installs the back-reference; once linked, `generate_cid` leaves the buffer
alone and inserts the fresh CID directly; and in the `accept_connection`
flow every CID minted during engine construction ends up in the table
mapping to the new connection's reference. -/
theorem c3_cid_registration {C G : Type} (W : World C G) :
    (∀ (scig : SCIG) (g : G) (t : Table), scig.cref = Option.none →
      (SCIG.generate_cid W scig g t).table = t ∧
      (SCIG.generate_cid W scig g t).scig.cref = Option.none ∧
      (∀ cid, (SCIG.generate_cid W scig g t).cid = some cid →
        (SCIG.generate_cid W scig g t).scig.saved_cids
          = scig.saved_cids ++ [cid]) ∧
      ((SCIG.generate_cid W scig g t).cid = Option.none →
        (SCIG.generate_cid W scig g t).scig = scig)) ∧
    (∀ (scig : SCIG) (r : Nat) (t : Table),
      (SCIG.set_connection scig r t).1.saved_cids = [] ∧
      (SCIG.set_connection scig r t).1.cref = some r ∧
      (∀ cid ∈ scig.saved_cids,
        lookupTable (SCIG.set_connection scig r t).2 cid = some r)) ∧
    (∀ (scig : SCIG) (g : G) (t : Table) (r : Nat), scig.cref = some r →
      (SCIG.generate_cid W scig g t).scig = scig ∧
      (∀ cid, (SCIG.generate_cid W scig g t).cid = some cid →
        lookupTable (SCIG.generate_cid W scig g t).table cid = some r)) ∧
    (∀ (s : Server C G) (key : AttemptKey) (ini : InitialDetails)
        (d : Datagram) (now : Instant) (c0 : C),
      W.newServer ini.version
        (mintLoop W W.mintRequests ⟨Option.none, []⟩ s.gen s.table).minted
          = some c0 →
      ∀ cid ∈ (mintLoop W W.mintRequests ⟨Option.none, []⟩ s.gen
          s.table).scig.saved_cids,
        ∃ o s', accept_connection W s key ini d now = Except.ok (o, s') ∧
          lookupTable s'.table cid = some s.nextRef) := by
  refine ⟨?_, ?_, ?_, ?_⟩
  · intro scig g t hnone
    cases hm : (W.genCid g).1 with
    | none =>
      rw [generate_cid_eq_none W scig g t hm]
      refine ⟨rfl, hnone, ?_, fun _ => rfl⟩
      intro cid hc
      exact absurd (show (Option.none : Option Cid) = some cid from hc)
        (by simp)
    | some cid =>
      rw [generate_cid_eq_unlinked W g t hm hnone]
      refine ⟨rfl, hnone, ?_, ?_⟩
      · intro c hc
        have hcc : some cid = some c := hc
        injection hcc with hcc
        subst hcc
        rfl
      · intro hc
        exact absurd (show some cid = (Option.none : Option Cid) from hc)
          (by simp)
  · intro scig r t
    refine ⟨rfl, rfl, ?_⟩
    intro cid hc
    exact foldl_insert_lookup_mem hc
  · intro scig g t r hsome
    cases hm : (W.genCid g).1 with
    | none =>
      rw [generate_cid_eq_none W scig g t hm]
      refine ⟨rfl, ?_⟩
      intro c hc
      exact absurd (show (Option.none : Option Cid) = some c from hc)
        (by simp)
    | some cid =>
      rw [generate_cid_eq_linked W g t hm hsome]
      refine ⟨rfl, ?_⟩
      intro c hc
      have hcc : some cid = some c := hc
      injection hcc with hcc
      subst hcc
      exact insert_cid_lookup_self cid r t
  · intro s key ini d now c0 hc0 cid hcid
    rw [accept_connection_eq_ok W key d now hc0]
    refine ⟨_, _, rfl, ?_⟩
    exact foldl_insert_lookup_mem hcid

theorem c3_cid_registration_witness :
    (SCIG.generate_cid unitWorld ⟨Option.none, []⟩ () []).scig.saved_cids
        = [] ++ [[50]] ∧
    lookupTable (SCIG.set_connection ⟨Option.none, [[50]]⟩ 7 []).2 [50]
        = some 7 ∧
    lookupTable (SCIG.generate_cid unitWorld ⟨some 3, []⟩ () []).table [50]
        = some 3 :=
  ⟨((c3_cid_registration unitWorld).1 ⟨Option.none, []⟩ () [] rfl).2.2.1
      [50] rfl,
   ((c3_cid_registration unitWorld).2.1 ⟨Option.none, [[50]]⟩ 7 []).2.2 [50]
      (List.mem_singleton.mpr rfl),
   (((c3_cid_registration unitWorld).2.2.1 ⟨some 3, []⟩ () [] 3 rfl).2 [50]
      rfl)⟩

/-! ## Claim C7 -/

/-- Claim C7: `active_attempt` is `some k` exactly while the engine state is
`Handshaking` or earlier.  The invariant is established when a freshly
accepted connection (attempt key installed) is first driven, it is preserved
by every later `ServerConnectionState::process` provided the engine state
rank never decreases, and the attempt is cleared precisely on a step whose
resulting state is strictly past `Handshaking`. -/
theorem c7_attempt_handshaking {C G : Type} (W : World C G) :
    (∀ (c : C) (key : AttemptKey) (dg : Option Datagram) (now : Instant),
      attemptInv W (SCS.process W ⟨c, some key⟩ dg now).1) ∧
    (∀ (scs : SCS C) (dg : Option Datagram) (now : Instant),
      attemptInv W scs →
      (W.stateC scs.c).rank ≤ (W.stateC (W.stepC scs.c dg now).1).rank →
      attemptInv W (SCS.process W scs dg now).1) ∧
    (∀ (scs : SCS C) (dg : Option Datagram) (now : Instant),
      ((W.stateC (W.stepC scs.c dg now).1).pastHandshaking = true →
        (SCS.process W scs dg now).1.active_attempt = Option.none) ∧
      ((W.stateC (W.stepC scs.c dg now).1).pastHandshaking = false →
        (SCS.process W scs dg now).1.active_attempt = scs.active_attempt)) := by
  refine ⟨?_, ?_, ?_⟩
  · intro c key dg now
    unfold attemptInv SCS.process State.pastHandshaking
    by_cases hp : 1 < (W.stateC (W.stepC c dg now).1).rank
    · simp [hp]
    · simp [hp]
      omega
  · intro scs dg now hinv hmono
    unfold attemptInv at hinv ⊢
    unfold SCS.process State.pastHandshaking
    by_cases hp : 1 < (W.stateC (W.stepC scs.c dg now).1).rank
    · simp [hp]
    · simp [hp]
      constructor
      · intro _
        omega
      · intro _
        exact hinv.mpr (by omega)
  · intro scs dg now
    unfold SCS.process
    constructor
    · intro hp
      simp [hp]
    · intro hp
      simp [hp]

theorem c7_attempt_handshaking_witness :
    attemptInv unitWorld
      (SCS.process unitWorld ⟨(), some ⟨0, [1]⟩⟩ Option.none 0).1 ∧
    attemptInv unitWorld (SCS.process unitWorld ⟨(), some ⟨1, [2]⟩⟩
      Option.none 0).1 :=
  ⟨(c7_attempt_handshaking unitWorld).1 () ⟨0, [1]⟩ Option.none 0,
   (c7_attempt_handshaking unitWorld).2.1 ⟨(), some ⟨1, [2]⟩⟩ Option.none 0
     (by simp [attemptInv, unitWorld, State.rank]) (by simp)⟩

/-! ## Claim C10 -/

/-- Counterexample to claim C10 as stated: immediately after `Server::new`
the policy is indeed `Never`, but an Initial carrying a well-formed retry
token does not validate as `Pass` — it validates as `ValidRetry`. -/
theorem c10_validation_counterexample :
    (Server.new (C := Unit) (G := Unit) [1] ()).policy
        = ValidateAddress.Never ∧
    validate ValidateAddress.Never [0, 0, 5] 0 0
        = AddressValidationResult.ValidRetry [5] ∧
    validate ValidateAddress.Never [0, 0, 5] 0 0
        ≠ AddressValidationResult.Pass := by
  refine ⟨rfl, ?_, ?_⟩ <;> decide

/-- Claim C10, amended: immediately after `Server::new` the policy is
`Never`; under `Never` every Initial carrying an empty token validates as
`Pass`; validation under `Never` never requests a Retry (never yields
`Validate`), so `handle_initial` reduces to the drop/continue branches and
produces no Retry datagram; `set_validation` installs the caller's
policy. -/
theorem c10_initial_policy {C G : Type} (vs : List Version) (g : G) :
    (Server.new (C := C) (G := G) vs g).policy = ValidateAddress.Never ∧
    (∀ (src : SocketAddr) (now : Instant),
      validate ValidateAddress.Never [] src now
        = AddressValidationResult.Pass) ∧
    (∀ (tok : Token) (src : SocketAddr) (now : Instant),
      validate ValidateAddress.Never tok src now
        ≠ AddressValidationResult.Validate) ∧
    (∀ (W : World C G) (s : Server C G) (ini : InitialDetails) (d : Datagram)
        (now : Instant), s.policy = ValidateAddress.Never →
      handle_initial W s ini d now =
        match validate ValidateAddress.Never ini.token d.src now with
        | AddressValidationResult.Pass =>
            connection_attempt W s ini d Option.none now
        | AddressValidationResult.ValidRetry o =>
            connection_attempt W s ini d (some o) now
        | _ => Except.ok (Output.none, s)) ∧
    (∀ (s : Server C G) (v : ValidateAddress),
      (Server.set_validation s v).policy = v) := by
  refine ⟨rfl, fun src now => rfl, ?_, ?_, fun s v => rfl⟩
  · intro tok src now
    unfold validate
    cases tok with
    | nil => simp
    | cons a rest =>
      cases hd : decodeRetryToken (a :: rest) with
      | none => simp
      | some triple =>
        obtain ⟨x, y, z⟩ := triple
        simp only
        split <;> simp
  · intro W s ini d now hpol
    unfold handle_initial
    rw [hpol]
    cases hv : validate ValidateAddress.Never ini.token d.src now with
    | Invalid => rfl
    | Pass => rfl
    | ValidRetry o => rfl
    | Validate =>
      have : validate ValidateAddress.Never ini.token d.src now
          ≠ AddressValidationResult.Validate := by
        unfold validate
        cases ini.token with
        | nil => simp
        | cons a rest =>
          cases hd : decodeRetryToken (a :: rest) with
          | none => simp
          | some triple =>
            obtain ⟨x, y, z⟩ := triple
            simp only
            split <;> simp
      exact absurd hv this

theorem c10_initial_policy_witness :
    validate ValidateAddress.Never [] 3 9 = AddressValidationResult.Pass ∧
    validate ValidateAddress.Never [0, 0, 5] 0 0
        ≠ AddressValidationResult.Validate ∧
    handle_initial unitWorld (Server.new [1] ()) ⟨[8], [7], [], 1⟩
        ⟨0, 1, 0, []⟩ 0 =
      match validate ValidateAddress.Never [] 0 0 with
      | AddressValidationResult.Pass =>
          connection_attempt unitWorld (Server.new [1] ()) ⟨[8], [7], [], 1⟩
            ⟨0, 1, 0, []⟩ Option.none 0
      | AddressValidationResult.ValidRetry o =>
          connection_attempt unitWorld (Server.new [1] ()) ⟨[8], [7], [], 1⟩
            ⟨0, 1, 0, []⟩ (some o) 0
      | _ => Except.ok (Output.none, Server.new [1] ()) :=
  ⟨(c10_initial_policy (C := Unit) (G := Unit) [1] ()).2.1 3 9,
   (c10_initial_policy (C := Unit) (G := Unit) [1] ()).2.2.1 [0, 0, 5] 0 0,
   (c10_initial_policy (C := Unit) (G := Unit) [1] ()).2.2.2.1 unitWorld
     (Server.new [1] ()) ⟨[8], [7], [], 1⟩ ⟨0, 1, 0, []⟩ 0 rfl⟩

/-! ## Claim C6 -/

/-- Claim C6: a datagram of at least 1200 bytes whose first packet is an
Initial with a version outside the configured set (or is marked as another
version) and whose DCID matches no table entry is answered with exactly one
Version Negotiation datagram listing precisely the configured versions, with
the reply's scid equal to the packet's dcid and the reply's dcid equal to
the packet's scid, and no connection is created (the server state is
untouched by triage). -/
theorem c6_version_negotiation {C G : Type} (W : World C G) (s : Server C G)
    (d : Datagram) (pkt : PublicPacket) (now : Instant)
    (hdec : decode d.payload = some pkt)
    (hcase : pkt.ptype = PacketType.otherVersion ∨
      (pkt.ptype = PacketType.initial ∧
       ∃ v, pkt.version = some v ∧ v ∉ s.versions))
    (hmiss : Server.connection s pkt.dcid = Option.none)
    (hlen : ¬d.payload.length < MIN_INITIAL_PACKET_SIZE) :
    process_input W s d now = Except.ok (Output.datagram
      ⟨d.dst, d.src, d.tos,
       versionNegotiation pkt.scid pkt.dcid pkt.wireVersion s.versions⟩,
      s) ∧
    Server.process W s (some d) now = Except.ok (Output.datagram
      ⟨d.dst, d.src, d.tos,
       versionNegotiation pkt.scid pkt.dcid pkt.wireVersion s.versions⟩,
      gc W s) ∧
    vnScid (versionNegotiation pkt.scid pkt.dcid pkt.wireVersion s.versions)
      = some pkt.dcid ∧
    vnDcid (versionNegotiation pkt.scid pkt.dcid pkt.wireVersion s.versions)
      = some pkt.scid ∧
    vnVersions (versionNegotiation pkt.scid pkt.dcid pkt.wireVersion
      s.versions) = some s.versions := by
  have hns : ¬pkt.ptype = PacketType.short := by
    rcases hcase with h | ⟨h, _⟩ <;> simp [h]
  have hu : unsupportedVersion pkt s.versions = Except.ok true := by
    rcases hcase with h | ⟨h, v, hv, hvn⟩
    · exact unsupportedVersion_eq_other h
    · rw [unsupportedVersion_eq_initial h hv]
      simp [hvn]
  have h1 := process_input_eq_vn W now hdec hmiss hns hu hlen
  exact ⟨h1, process_eq_datagram h1,
    vnScid_versionNegotiation pkt.scid pkt.dcid pkt.wireVersion s.versions,
    vnDcid_versionNegotiation pkt.scid pkt.dcid pkt.wireVersion s.versions,
    vnVersions_versionNegotiation pkt.scid pkt.dcid pkt.wireVersion
      s.versions⟩

set_option maxRecDepth 8000 in
theorem c6_version_negotiation_witness :
    process_input unitWorld c6Server c6Dgram 0 = Except.ok (Output.datagram
      ⟨c6Dgram.dst, c6Dgram.src, c6Dgram.tos,
       versionNegotiation [8] [7] 2 [1]⟩, c6Server) ∧
    Server.process unitWorld c6Server (some c6Dgram) 0
      = Except.ok (Output.datagram
        ⟨c6Dgram.dst, c6Dgram.src, c6Dgram.tos,
         versionNegotiation [8] [7] 2 [1]⟩, gc unitWorld c6Server) ∧
    vnScid (versionNegotiation [8] [7] 2 [1]) = some [7] ∧
    vnDcid (versionNegotiation [8] [7] 2 [1]) = some [8] ∧
    vnVersions (versionNegotiation [8] [7] 2 [1]) = some [1] :=
  c6_version_negotiation unitWorld c6Server c6Dgram
    ⟨PacketType.initial, [7], [8], [], some 2, 2⟩ 0 rfl
    (Or.inr ⟨rfl, 2, rfl, by decide⟩) rfl (by decide)

/-! ## Claim C8 -/

/-- Counterexample to claim C8 as stated: a short (5-byte) Initial for an
unknown DCID makes triage drop the input, but `process` then runs the
output scan, and a connection with pending output makes the call return a
datagram — so "process produces no outbound datagram" is false as a
statement about the whole call. -/
theorem c8_short_initial_counterexample :
    decode c8Dgram.payload
      = some ⟨PacketType.initial, [], [], [], some 1, 1⟩ ∧
    c8Dgram.payload.length < MIN_INITIAL_PACKET_SIZE ∧
    Server.connection c8Server [] = Option.none ∧
    outputOf (Server.process c8World c8Server (some c8Dgram) 0)
      = some (Output.datagram ⟨9, 9, 0, [1, 2, 3]⟩) :=
  ⟨rfl, by decide, rfl, rfl⟩

/-- Claim C8, amended: for a datagram shorter than 1200 bytes whose first
packet header is an Initial and whose DCID matches no table entry, the
triage step produces no outbound datagram and leaves the server untouched
(no Version Negotiation, no Retry, no connection); the call's return value
is then whatever the per-connection output scan yields. -/
theorem c8_short_initial_triage_drop {C G : Type} (W : World C G)
    (s : Server C G) (d : Datagram) (pkt : PublicPacket) (now : Instant)
    (hdec : decode d.payload = some pkt)
    (hty : pkt.ptype = PacketType.initial)
    (hmiss : Server.connection s pkt.dcid = Option.none)
    (hlen : d.payload.length < MIN_INITIAL_PACKET_SIZE) :
    process_input W s d now = Except.ok (Output.none, s) := by
  have hns : ¬pkt.ptype = PacketType.short := by simp [hty]
  obtain ⟨v, hv⟩ := decode_version_isSome hdec (by simp [hty]) hns
  by_cases hin : v ∈ s.versions
  · have hu : unsupportedVersion pkt s.versions = Except.ok false := by
      rw [unsupportedVersion_eq_initial hty hv]
      simp [hin]
    exact process_input_eq_initial_short W now hdec hmiss hty hu hlen
  · have hu : unsupportedVersion pkt s.versions = Except.ok true := by
      rw [unsupportedVersion_eq_initial hty hv]
      simp [hin]
    exact process_input_eq_vn_short W now hdec hmiss hns hu hlen

theorem c8_short_initial_triage_drop_witness :
    process_input c8World c8Server c8Dgram 0
      = Except.ok (Output.none, c8Server) :=
  c8_short_initial_triage_drop c8World c8Server c8Dgram
    ⟨PacketType.initial, [], [], [], some 1, 1⟩ 0 rfl rfl rfl (by decide)

/-! ## Claim C5 -/

/-- Claim C5: when an Initial's token validates as `Validate`, the server
mints a token bound to `(dst_cid, source, now)`, obtains a fresh CID from
the shared generator, and replies with exactly one Retry datagram whose
packet is built from `(version, scid = client src_cid, dcid = new server
CID, token, odcid = client dst_cid)`; if token minting, CID generation or
packet encoding fails the triage result is `Output.none`.  In every case no
connection is created: the store, table and reference counter are
untouched. -/
theorem c5_retry_validate {C G : Type} (W : World C G) (s : Server C G)
    (d : Datagram) (pkt : PublicPacket) (now : Instant) (v : Version)
    (hdec : decode d.payload = some pkt)
    (hty : pkt.ptype = PacketType.initial) (hv : pkt.version = some v)
    (hvin : v ∈ s.versions)
    (hlen : ¬d.payload.length < MIN_INITIAL_PACKET_SIZE)
    (hmiss : Server.connection s pkt.dcid = Option.none)
    (hval : validate s.policy pkt.token d.src now
      = AddressValidationResult.Validate) :
    process_input W s d now =
      (match W.mintToken pkt.dcid d.src now with
       | Option.none => Except.ok (Output.none, s)
       | some token =>
         match (W.genCid s.gen).1 with
         | some new_dcid =>
           match W.encRetry v pkt.scid new_dcid token pkt.dcid with
           | some p => Except.ok (Output.datagram ⟨d.dst, d.src, d.tos, p⟩,
               { s with gen := (W.genCid s.gen).2 })
           | Option.none => Except.ok (Output.none,
               { s with gen := (W.genCid s.gen).2 })
         | Option.none => Except.ok (Output.none,
             { s with gen := (W.genCid s.gen).2 })) ∧
    (∀ o s', process_input W s d now = Except.ok (o, s') →
      s'.store = s.store ∧ s'.table = s.table ∧ s'.nextRef = s.nextRef) := by
  have hu : unsupportedVersion pkt s.versions = Except.ok false := by
    rw [unsupportedVersion_eq_initial hty hv]
    simp [hvin]
  have h1 := process_input_eq_initial W now hdec hmiss hty hv hu hlen
  have hmain : process_input W s d now =
      (match W.mintToken pkt.dcid d.src now with
       | Option.none => Except.ok (Output.none, s)
       | some token =>
         match (W.genCid s.gen).1 with
         | some new_dcid =>
           match W.encRetry v pkt.scid new_dcid token pkt.dcid with
           | some p => Except.ok (Output.datagram ⟨d.dst, d.src, d.tos, p⟩,
               { s with gen := (W.genCid s.gen).2 })
           | Option.none => Except.ok (Output.none,
               { s with gen := (W.genCid s.gen).2 })
         | Option.none => Except.ok (Output.none,
             { s with gen := (W.genCid s.gen).2 })) := by
    rw [h1]
    unfold handle_initial
    dsimp only
    rw [hval]
  refine ⟨hmain, ?_⟩
  intro o s' hos
  rw [hmain] at hos
  repeat' split at hos
  all_goals
    injection hos with hos
    injection hos with hpo hps
    subst hps
    exact ⟨rfl, rfl, rfl⟩

set_option maxRecDepth 8000 in
theorem c5_retry_validate_witness :
    process_input unitWorld c5Server c5Dgram 0 =
      (match unitWorld.mintToken [7] c5Dgram.src 0 with
       | Option.none => Except.ok (Output.none, c5Server)
       | some token =>
         match (unitWorld.genCid c5Server.gen).1 with
         | some new_dcid =>
           match unitWorld.encRetry 1 [8] new_dcid token [7] with
           | some p => Except.ok (Output.datagram
               ⟨c5Dgram.dst, c5Dgram.src, c5Dgram.tos, p⟩,
               { c5Server with gen := (unitWorld.genCid c5Server.gen).2 })
           | Option.none => Except.ok (Output.none,
               { c5Server with gen := (unitWorld.genCid c5Server.gen).2 })
         | Option.none => Except.ok (Output.none,
             { c5Server with gen := (unitWorld.genCid c5Server.gen).2 })) :=
  (c5_retry_validate unitWorld c5Server c5Dgram
    ⟨PacketType.initial, [7], [8], [], some 1, 1⟩ 0 1 rfl rfl rfl
    (by decide) (by decide) rfl rfl).1

/-! ## Totality of the driver (no panics) -/

theorem findAttempt_mem {C : Type} {store : List (Nat × SCS C)} {t : Table}
    {key : AttemptKey} {r : Nat} (h : findAttempt store t key = some r) :
    ∃ p ∈ t, p.2 = r := by
  unfold findAttempt at h
  rw [Option.map_eq_some'] at h
  obtain ⟨a, ha, har⟩ := h
  exact ⟨a, List.mem_of_find?_eq_some ha, har⟩

theorem insert_cid_mem_cases {p : Cid × Nat} {c : Cid} {r : Nat} {t : Table}
    (h : p ∈ insert_cid c r t) : p.2 = r ∨ p ∈ t := by
  unfold insert_cid at h
  split at h
  · obtain ⟨q, hq, hfq⟩ := List.mem_map.mp h
    by_cases hqc : q.1 = c
    · left
      rw [← hfq]
      simp [hqc]
    · right
      rw [← hfq]
      simp only [hqc, if_false]
      exact hq
  · rcases List.mem_append.mp h with h | h
    · right
      exact h
    · left
      rw [List.mem_singleton.mp h]

theorem foldl_insert_mem_cases {p : Cid × Nat} {r : Nat} {t : Table}
    {L : List Cid}
    (h : p ∈ L.foldl (fun acc c => insert_cid c r acc) t) :
    p.2 = r ∨ p ∈ t := by
  induction L generalizing t with
  | nil => exact Or.inr h
  | cons c L ih =>
    rcases ih (by simpa using h) with h' | h'
    · exact Or.inl h'
    · rcases insert_cid_mem_cases h' with h'' | h''
      · exact Or.inl h''
      · exact Or.inr h''

theorem handle_initial_eq_invalid {C G : Type} (W : World C G)
    {s : Server C G} {ini : InitialDetails} {d : Datagram} {now : Instant}
    (hval : validate s.policy ini.token d.src now
      = AddressValidationResult.Invalid) :
    handle_initial W s ini d now = Except.ok (Output.none, s) := by
  unfold handle_initial
  rw [hval]

theorem handle_initial_eq_pass {C G : Type} (W : World C G)
    {s : Server C G} {ini : InitialDetails} {d : Datagram} {now : Instant}
    (hval : validate s.policy ini.token d.src now
      = AddressValidationResult.Pass) :
    handle_initial W s ini d now
      = connection_attempt W s ini d Option.none now := by
  unfold handle_initial
  rw [hval]

theorem handle_initial_eq_validretry {C G : Type} (W : World C G)
    {s : Server C G} {ini : InitialDetails} {d : Datagram} {now : Instant}
    {o : Cid} (hval : validate s.policy ini.token d.src now
      = AddressValidationResult.ValidRetry o) :
    handle_initial W s ini d now
      = connection_attempt W s ini d (some o) now := by
  unfold handle_initial
  rw [hval]

theorem handle_initial_eq_validate {C G : Type} (W : World C G)
    {s : Server C G} {ini : InitialDetails} {d : Datagram} {now : Instant}
    (hval : validate s.policy ini.token d.src now
      = AddressValidationResult.Validate) :
    handle_initial W s ini d now =
      (match W.mintToken ini.dst_cid d.src now with
       | Option.none => Except.ok (Output.none, s)
       | some token =>
         match (W.genCid s.gen).1 with
         | some new_dcid =>
           match W.encRetry ini.version ini.src_cid new_dcid token
               ini.dst_cid with
           | some p => Except.ok (Output.datagram ⟨d.dst, d.src, d.tos, p⟩,
               { s with gen := (W.genCid s.gen).2 })
           | Option.none => Except.ok (Output.none,
               { s with gen := (W.genCid s.gen).2 })
         | Option.none => Except.ok (Output.none,
             { s with gen := (W.genCid s.gen).2 })) := by
  unfold handle_initial
  rw [hval]

theorem handle_0rtt_ok {C G : Type} (W : World C G) {s : Server C G}
    (d : Datagram) (dcid : Cid) (now : Instant) (hwf : WF s) :
    ∃ out s', handle_0rtt W s d dcid now = Except.ok (out, s') ∧
      s'.table = s.table ∧ s'.store.map Prod.fst = s.store.map Prod.fst ∧
      s'.nextRef = s.nextRef ∧ WF s' := by
  unfold handle_0rtt
  cases hfa : findAttempt s.store s.table ⟨d.src, dcid⟩ with
  | none => exact ⟨Output.none, s, rfl, rfl, rfl, rfl, hwf⟩
  | some r =>
    have hr : (lookupStore s.store r).isSome = true := by
      obtain ⟨p, hp, hpr⟩ := findAttempt_mem hfa
      exact hpr ▸ hwf p hp
    obtain ⟨scs, hscs, heq⟩ := processRef_ok W hr (some d) now
    refine ⟨_, _, heq, rfl, updateStore_ids _ _ _, rfl,
      WF_of_same hwf rfl (updateStore_ids _ _ _)⟩

theorem accept_ok {C G : Type} (W : World C G) (s : Server C G)
    (key : AttemptKey) (ini : InitialDetails) (d : Datagram) (now : Instant)
    (hwf : WF s) :
    ∃ out s', accept_connection W s key ini d now = Except.ok (out, s') ∧
      WF s' := by
  cases hns : W.newServer ini.version
      (mintLoop W W.mintRequests ⟨Option.none, []⟩ s.gen s.table).minted with
  | none =>
    refine ⟨_, _, accept_connection_eq_fail W key d now hns, ?_⟩
    exact WF_of_same hwf rfl rfl
  | some c0 =>
    refine ⟨_, _, accept_connection_eq_ok W key d now hns, ?_⟩
    have hMt : (mintLoop W W.mintRequests ⟨Option.none, []⟩ s.gen
        s.table).table = s.table :=
      (mintLoop_unlinked W W.mintRequests ⟨Option.none, []⟩ s.gen s.table
        rfl).2.1
    intro p hp
    have hids : (updateStore (s.store ++ [(s.nextRef, ⟨c0, some key⟩)])
        s.nextRef (SCS.process W ⟨c0, some key⟩ (some d) now).1).map Prod.fst
        = s.store.map Prod.fst ++ [s.nextRef] := by
      rw [updateStore_ids]
      simp
    have hp' : p ∈ (SCIG.set_connection
        (mintLoop W W.mintRequests ⟨Option.none, []⟩ s.gen s.table).scig
        s.nextRef
        (mintLoop W W.mintRequests ⟨Option.none, []⟩ s.gen
          s.table).table).2 := hp
    unfold SCIG.set_connection at hp'
    rw [hMt] at hp'
    rw [lookupStore_isSome_iff, hids]
    rcases foldl_insert_mem_cases hp' with hr | hmem
    · rw [hr]
      simp
    · have := hwf p hmem
      rw [lookupStore_isSome_iff] at this
      exact List.mem_append_left _ this

theorem connection_attempt_ok {C G : Type} (W : World C G) (s : Server C G)
    (ini : InitialDetails) (d : Datagram) (od : Option Cid) (now : Instant)
    (hwf : WF s) :
    ∃ out s', connection_attempt W s ini d od now = Except.ok (out, s') ∧
      WF s' := by
  unfold connection_attempt
  dsimp only
  cases hfa : findAttempt s.store s.table ⟨d.src, od.getD ini.dst_cid⟩ with
  | some r =>
    have hr : (lookupStore s.store r).isSome = true := by
      obtain ⟨p, hp, hpr⟩ := findAttempt_mem hfa
      exact hpr ▸ hwf p hp
    obtain ⟨scs, hscs, heq⟩ := processRef_ok W hr (some d) now
    exact ⟨_, _, heq, WF_of_same hwf rfl (updateStore_ids _ _ _)⟩
  | none => exact accept_ok W s _ ini d now hwf

theorem handle_initial_ok {C G : Type} (W : World C G) (s : Server C G)
    (ini : InitialDetails) (d : Datagram) (now : Instant) (hwf : WF s) :
    ∃ out s', handle_initial W s ini d now = Except.ok (out, s') ∧
      WF s' := by
  cases hval : validate s.policy ini.token d.src now with
  | Invalid => exact ⟨_, _, handle_initial_eq_invalid W hval, hwf⟩
  | Pass =>
    obtain ⟨out, s', h, hwf'⟩ :=
      connection_attempt_ok W s ini d Option.none now hwf
    exact ⟨out, s', by rw [handle_initial_eq_pass W hval]; exact h, hwf'⟩
  | ValidRetry o =>
    obtain ⟨out, s', h, hwf'⟩ :=
      connection_attempt_ok W s ini d (some o) now hwf
    exact ⟨out, s', by rw [handle_initial_eq_validretry W hval]; exact h,
      hwf'⟩
  | Validate =>
    rw [handle_initial_eq_validate W hval]
    cases hmt : W.mintToken ini.dst_cid d.src now with
    | none => exact ⟨Output.none, s, rfl, hwf⟩
    | some token =>
      dsimp only
      cases hg : (W.genCid s.gen).1 with
      | none =>
        exact ⟨Output.none, { s with gen := (W.genCid s.gen).2 }, rfl,
          WF_of_same hwf rfl rfl⟩
      | some new_dcid =>
        dsimp only
        cases he : W.encRetry ini.version ini.src_cid new_dcid token
            ini.dst_cid with
        | none =>
          exact ⟨Output.none, { s with gen := (W.genCid s.gen).2 }, rfl,
            WF_of_same hwf rfl rfl⟩
        | some p =>
          exact ⟨Output.datagram ⟨d.dst, d.src, d.tos, p⟩,
            { s with gen := (W.genCid s.gen).2 }, rfl,
            WF_of_same hwf rfl rfl⟩

theorem process_input_ok {C G : Type} (W : World C G) (s : Server C G)
    (d : Datagram) (now : Instant) (hwf : WF s) :
    ∃ out s1, process_input W s d now = Except.ok (out, s1) ∧ WF s1 := by
  cases hdec : decode d.payload with
  | none => exact ⟨_, _, process_input_eq_decode_fail W s now hdec, hwf⟩
  | some pkt =>
    cases hcon : Server.connection s pkt.dcid with
    | some r =>
      have hr : (lookupStore s.store r).isSome = true :=
        hwf _ (lookupTable_mem hcon)
      obtain ⟨scs, hscs, heq⟩ := processRef_ok W hr (some d) now
      refine ⟨(SCS.process W scs (some d) now).2,
        { s with store :=
            updateStore s.store r (SCS.process W scs (some d) now).1 },
        ?_, WF_of_same hwf rfl (updateStore_ids s.store r _)⟩
      rw [process_input_eq_fastpath W now hdec hcon]
      exact heq
    | none =>
      by_cases hshort : pkt.ptype = PacketType.short
      · exact ⟨_, _, process_input_eq_short W now hdec hcon hshort, hwf⟩
      · have hu : ∃ b, unsupportedVersion pkt s.versions = Except.ok b := by
          by_cases h1 : pkt.ptype = PacketType.otherVersion
          · exact ⟨true, unsupportedVersion_eq_other h1⟩
          · by_cases h2 : pkt.ptype = PacketType.initial
            · obtain ⟨v, hv⟩ := decode_version_isSome hdec h1 hshort
              exact ⟨_, unsupportedVersion_eq_initial h2 hv⟩
            · exact ⟨false, unsupportedVersion_eq_else h1 h2⟩
        obtain ⟨b, hub⟩ := hu
        cases b with
        | true =>
          by_cases hlen : d.payload.length < MIN_INITIAL_PACKET_SIZE
          · exact ⟨_, _,
              process_input_eq_vn_short W now hdec hcon hshort hub hlen,
              hwf⟩
          · exact ⟨_, _,
              process_input_eq_vn W now hdec hcon hshort hub hlen, hwf⟩
        | false =>
          cases hty : pkt.ptype with
          | initial =>
            by_cases hlen : d.payload.length < MIN_INITIAL_PACKET_SIZE
            · exact ⟨_, _, process_input_eq_initial_short W now hdec hcon
                hty hub hlen, hwf⟩
            · obtain ⟨v, hv⟩ :=
                decode_version_isSome hdec (by simp [hty]) hshort
              obtain ⟨out, s1, hhi, hwf1⟩ := handle_initial_ok W s
                ⟨pkt.scid, pkt.dcid, pkt.token, v⟩ d now hwf
              exact ⟨out, s1, by
                rw [process_input_eq_initial W now hdec hcon hty hv hub hlen]
                exact hhi, hwf1⟩
          | zeroRtt =>
            obtain ⟨out, s1, h0, _, _, _, hwf1⟩ :=
              handle_0rtt_ok W d pkt.dcid now hwf
            exact ⟨out, s1, by
              rw [process_input_eq_0rtt W now hdec hcon hty hub]
              exact h0, hwf1⟩
          | handshake =>
            exact ⟨_, _,
              process_input_eq_handshake W now hdec hcon hty hub, hwf⟩
          | short => exact absurd hty hshort
          | otherVersion =>
            rw [unsupportedVersion_eq_other hty] at hub
            simp at hub

theorem table_refs_in_store {C G : Type} {s : Server C G} (hwf : WF s) :
    ∀ r ∈ s.table.map (fun p => p.2), r ∈ s.store.map Prod.fst := by
  intro r hr
  obtain ⟨p, hp, hpr⟩ := List.mem_map.mp hr
  rw [← lookupStore_isSome_iff]
  exact hpr ▸ hwf p hp

/-- `Server::process` always returns an `Output`: no panic site is
reachable. -/
theorem process_ok {C G : Type} (W : World C G) (s : Server C G)
    (dg : Option Datagram) (now : Instant) (hwf : WF s) :
    ∃ res, Server.process W s dg now = Except.ok res := by
  cases dg with
  | none =>
    obtain ⟨outs, s'', _, _, _, _, _, _, hscan⟩ :=
      scanLoop_spec W (s.table.map (fun p => p.2)) s now
        (table_refs_in_store hwf)
    obtain ⟨s', hs', _⟩ := hscan Option.none
    exact ⟨_, process_none_eq_scan hs'⟩
  | some d =>
    obtain ⟨out, s1, hpi, hwf1⟩ := process_input_ok W s d now hwf
    cases out with
    | none =>
      obtain ⟨outs, s'', _, _, _, _, _, _, hscan⟩ :=
        scanLoop_spec W (s1.table.map (fun p => p.2)) s1 now
          (table_refs_in_store hwf1)
      obtain ⟨s', hs', _⟩ := hscan Option.none
      exact ⟨_, process_eq_scan hpi hs'⟩
    | datagram dd => exact ⟨_, process_eq_datagram hpi⟩
    | callback t => exact ⟨_, process_eq_callback hpi⟩

/-! ## Claim C9 -/

/-- Claim C9: `process` never panics on arbitrary byte strings of any length
supplied as the datagram payload: for every well-formed server state (every
table reference dereferences — automatic in Rust, where the table owns the
states) the embedded driver, whose `.error` results mark exactly the
`unwrap` and `unreachable!` panic sites, returns `Except.ok`. -/
theorem c9_no_panic {C G : Type} (W : World C G) (s : Server C G)
    (src dst : SocketAddr) (tos : Nat) (payload : List Nat) (now : Instant)
    (hwf : WF s) :
    (Server.process W s (some ⟨src, dst, tos, payload⟩) now).toBool
      = true := by
  obtain ⟨res, hres⟩ := process_ok W s (some ⟨src, dst, tos, payload⟩) now hwf
  rw [hres]
  rfl

theorem c9_no_panic_witness :
    (Server.process unitWorld (Server.new (C := Unit) (G := Unit) [] ())
      (some ⟨0, 0, 0, [5, 77, 1]⟩) 0).toBool = true :=
  c9_no_panic unitWorld (Server.new [] ()) 0 0 0 [5, 77, 1] 0
    (fun p hp => absurd hp (List.not_mem_nil p))

/-! ## Support lemmas for the duplicate-Initial law -/

theorem lookupStore_append {C : Type} (a b : List (Nat × SCS C)) (x : Nat) :
    lookupStore (a ++ b) x = (lookupStore a x).or (lookupStore b x) := by
  unfold lookupStore
  rw [List.find?_append]
  cases a.find? (fun p => decide (p.1 = x)) <;> simp

theorem lookupStore_filter_keyfun {C : Type} {f : Nat → Bool}
    (store : List (Nat × SCS C)) (x : Nat) :
    lookupStore (store.filter fun q => f q.1) x
      = if f x then lookupStore store x else Option.none := by
  induction store with
  | nil => cases hf : f x <;> simp [lookupStore, hf]
  | cons q store ih =>
    rw [List.filter_cons]
    cases hfq : f q.1
    · rw [if_neg (by simp [hfq])]
      rw [ih]
      by_cases hqx : q.1 = x
      · have hfx : f x = false := by rw [← hqx, hfq]
        rw [hfx]
        simp
      · rw [lookupStore_cons_ne hqx]
    · rw [if_pos (by simp [hfq])]
      by_cases hqx : q.1 = x
      · have hfx : f x = true := by rw [← hqx, hfq]
        rw [hfx, if_pos rfl]
        rw [lookupStore_cons_self hqx, lookupStore_cons_self hqx]
      · rw [lookupStore_cons_ne hqx, ih, lookupStore_cons_ne hqx]

theorem State.isClosed_eq_false_of_past_false {st : State}
    (h : st.pastHandshaking = false) : st.isClosed = false := by
  revert h
  cases st <;> decide

theorem handle_initial_eq_survives {C G : Type} (W : World C G)
    {s : Server C G} {ini : InitialDetails} {d : Datagram} {now : Instant}
    {od : Option Cid}
    (h : survivesWith s.policy ini.token d.src now = some od) :
    handle_initial W s ini d now = connection_attempt W s ini d od now := by
  unfold survivesWith at h
  cases hval : validate s.policy ini.token d.src now with
  | Invalid => rw [hval] at h; cases h
  | Validate => rw [hval] at h; cases h
  | Pass =>
    rw [hval] at h
    injection h with h
    subst h
    exact handle_initial_eq_pass W hval
  | ValidRetry o =>
    rw [hval] at h
    injection h with h
    subst h
    exact handle_initial_eq_validretry W hval

theorem connection_attempt_eq_processRef {C G : Type} (W : World C G)
    {s : Server C G} {ini : InitialDetails} {d : Datagram}
    {od : Option Cid} {now : Instant} {r : Nat}
    (hfa : findAttempt s.store s.table ⟨d.src, od.getD ini.dst_cid⟩
      = some r) :
    connection_attempt W s ini d od now = processRef W s r (some d) now := by
  unfold connection_attempt
  dsimp only
  rw [hfa]

theorem connection_attempt_eq_accept {C G : Type} (W : World C G)
    {s : Server C G} {ini : InitialDetails} {d : Datagram}
    {od : Option Cid} {now : Instant}
    (hfa : findAttempt s.store s.table ⟨d.src, od.getD ini.dst_cid⟩
      = Option.none) :
    connection_attempt W s ini d od now
      = accept_connection W s ⟨d.src, od.getD ini.dst_cid⟩ ini d now := by
  unfold connection_attempt
  dsimp only
  rw [hfa]

theorem SCS_process_eq {C G : Type} (W : World C G) {c0 c1 : C}
    {out : Output} (a : Option AttemptKey) (dg : Option Datagram)
    (now : Instant) (hstep : W.stepC c0 dg now = (c1, out))
    (hstate : (W.stateC c1).pastHandshaking = false) :
    SCS.process W ⟨c0, a⟩ dg now = (⟨c1, a⟩, out) := by
  unfold SCS.process
  dsimp only
  rw [hstep]
  dsimp only
  rw [hstate]
  simp

theorem WF_gc {C G : Type} (W : World C G) (x : Server C G) :
    WF (gc W x) := by
  intro p hp
  obtain ⟨scs, hscs, _⟩ := gc_sound W x p hp
  rw [hscs]
  rfl

/-! ## Claim C1 -/

/-- Counterexample to claim C1 as stated: when triage yields a `Callback`,
the call returns that callback and the scan is skipped (`Output::or_else`
only runs its closure on `None`).  Here triage routes the input to an
existing connection which asks for `Callback 5`; scanning the resulting
state would instead yield `Callback 3`; the call returns `Callback 5`. -/
theorem c1_or_else_counterexample :
    process_input c1World c1Server c1Dgram 0
      = Except.ok (Output.callback 5, c1ServerMid) ∧
    outputOf (process_next_output c1World c1ServerMid 0)
      = some (Output.callback 3) ∧
    outputOf (Server.process c1World c1Server (some c1Dgram) 0)
      = some (Output.callback 5) ∧
    Output.callback 5 ≠ Output.callback 3 :=
  ⟨rfl, rfl, rfl, by decide⟩

/-- Claim C1, amended: for `process(Some(d), now)`, if triage yields a
`Datagram` or a `Callback` that is the call's return value and the
per-connection output scan is skipped; only when triage yields `None` (and
when there is no input) are all connections scanned with no input, and the
scan returns the first `Datagram` produced, otherwise the minimum `Callback`
deadline requested, otherwise `None` — the spec-side fold `foldOutputs` of
the outputs the connections produce in order. -/
theorem c1_driver_precedence {C G : Type} (W : World C G) (s : Server C G)
    (d : Datagram) (now : Instant) (out : Output) (s1 : Server C G)
    (hwf : WF s)
    (hpi : process_input W s d now = Except.ok (out, s1)) :
    (out ≠ Output.none →
      Server.process W s (some d) now = Except.ok (out, gc W s1)) ∧
    (out = Output.none →
      ∃ outs s'' s2,
        runSeq W (s1.table.map (fun p => p.2)) s1 now
          = Except.ok (outs, s'') ∧
        Server.process W s (some d) now
          = Except.ok (foldOutputs outs Option.none, gc W s2)) ∧
    (∃ outs s'' s2,
      runSeq W (s.table.map (fun p => p.2)) s now = Except.ok (outs, s'') ∧
      Server.process W s Option.none now
        = Except.ok (foldOutputs outs Option.none, gc W s2)) := by
  have hwf1 : WF s1 := by
    obtain ⟨out', s1', h', hwf'⟩ := process_input_ok W s d now hwf
    rw [hpi] at h'
    injection h' with h'
    injection h' with ho hs
    exact hs ▸ hwf'
  refine ⟨?_, ?_, ?_⟩
  · intro hne
    cases out with
    | none => exact absurd rfl hne
    | datagram dd => exact process_eq_datagram hpi
    | callback t => exact process_eq_callback hpi
  · intro he
    subst he
    obtain ⟨outs, s'', hrun, _, _, _, _, _, hscan⟩ :=
      scanLoop_spec W (s1.table.map (fun p => p.2)) s1 now
        (table_refs_in_store hwf1)
    obtain ⟨s2, hs2, _⟩ := hscan Option.none
    exact ⟨outs, s'', s2, hrun, process_eq_scan hpi hs2⟩
  · obtain ⟨outs, s'', hrun, _, _, _, _, _, hscan⟩ :=
      scanLoop_spec W (s.table.map (fun p => p.2)) s now
        (table_refs_in_store hwf)
    obtain ⟨s2, hs2, _⟩ := hscan Option.none
    exact ⟨outs, s'', s2, hrun, process_none_eq_scan hs2⟩

theorem c1_driver_precedence_witness :
    Server.process c1World c1Server (some c1Dgram) 0
      = Except.ok (Output.callback 5, gc c1World c1ServerMid) :=
  (c1_driver_precedence c1World c1Server c1Dgram 0 (Output.callback 5)
    c1ServerMid (fun p hp => by rw [List.mem_singleton.mp hp]; rfl) rfl).1
    (by decide)

/-! ## Claim C2 -/

/-- Claim C2: delivering the same Initial datagram twice yields exactly one
connection.  Under the stated side conditions — the datagram decodes as a
supported, full-size Initial for an unknown DCID, survives address
validation the same way on both deliveries, no connection already serves the
attempt, the engine is constructible, it mints at least one CID (none equal
to the client's DCID), and its first step answers with a datagram while
staying in `Handshaking` or earlier — the first `process` call accepts one
connection (reference `s.nextRef`), and on the second call triage finds that
connection through its `active_attempt` and delivers the datagram to it
instead of accepting: the reference counter does not move and no new
connection appears in the store. -/
theorem c2_duplicate_initial {C G : Type} (W : World C G) (s : Server C G)
    (d : Datagram) (pkt : PublicPacket) (now1 now2 : Instant) (v : Version)
    (od : Option Cid) (c0 c1 : C) (resp : Datagram)
    (hdec : decode d.payload = some pkt)
    (hty : pkt.ptype = PacketType.initial)
    (hv : pkt.version = some v)
    (hvin : v ∈ s.versions)
    (hlen : ¬d.payload.length < MIN_INITIAL_PACKET_SIZE)
    (hmiss : Server.connection s pkt.dcid = Option.none)
    (hsurv1 : survivesWith s.policy pkt.token d.src now1 = some od)
    (hsurv2 : survivesWith s.policy pkt.token d.src now2 = some od)
    (hnoatt : findAttempt s.store s.table ⟨d.src, od.getD pkt.dcid⟩
      = Option.none)
    (hctor : W.newServer v (mintLoop W W.mintRequests ⟨Option.none, []⟩
      s.gen s.table).minted = some c0)
    (hminted : (mintLoop W W.mintRequests ⟨Option.none, []⟩ s.gen
      s.table).scig.saved_cids ≠ [])
    (hdnotm : pkt.dcid ∉ (mintLoop W W.mintRequests ⟨Option.none, []⟩ s.gen
      s.table).scig.saved_cids)
    (hstep : W.stepC c0 (some d) now1 = (c1, Output.datagram resp))
    (hstate : (W.stateC c1).pastHandshaking = false) :
    match Server.process W s (some d) now1 with
    | Except.ok (_, s1) =>
        s.nextRef ∈ s1.store.map Prod.fst ∧
        findAttempt s1.store s1.table ⟨d.src, od.getD pkt.dcid⟩
          = some s.nextRef ∧
        process_input W s1 d now2
          = processRef W s1 s.nextRef (some d) now2 ∧
        (match Server.process W s1 (some d) now2 with
         | Except.ok (_, s2) =>
             s2.nextRef = s1.nextRef ∧
             ((s2.store.map Prod.fst).all
               (fun i => (s1.store.map Prod.fst).elem i)) = true
         | Except.error _ => False)
    | Except.error _ => False := by
  have hu : unsupportedVersion pkt s.versions = Except.ok false := by
    rw [unsupportedVersion_eq_initial hty hv]
    simp [hvin]
  have hscs := SCS_process_eq W
    (some (⟨d.src, od.getD pkt.dcid⟩ : AttemptKey)) (some d) now1 hstep
    hstate
  obtain ⟨S1, hS1def, hpi1⟩ : ∃ S1, S1 =
      ({ s with
        gen := (mintLoop W W.mintRequests ⟨Option.none, []⟩ s.gen s.table).g,
        table := (SCIG.set_connection
          (mintLoop W W.mintRequests ⟨Option.none, []⟩ s.gen s.table).scig
          s.nextRef
          (mintLoop W W.mintRequests ⟨Option.none, []⟩ s.gen
            s.table).table).2,
        store := updateStore
          (s.store ++ [(s.nextRef, ⟨c0, some ⟨d.src, od.getD pkt.dcid⟩⟩)])
          s.nextRef ⟨c1, some ⟨d.src, od.getD pkt.dcid⟩⟩,
        nextRef := s.nextRef + 1 } : Server C G) ∧
      process_input W s d now1 = Except.ok (Output.datagram resp, S1) := by
    refine ⟨_, rfl, ?_⟩
    rw [process_input_eq_initial W now1 hdec hmiss hty hv hu hlen,
      handle_initial_eq_survives W hsurv1,
      connection_attempt_eq_accept W hnoatt,
      accept_connection_eq_ok W _ d now1 hctor]
    dsimp only
    rw [hscs]
  have hfirst := process_eq_datagram hpi1
  rw [hfirst]
  dsimp only
  -- table and store shape of the accepted state
  have hT2 : S1.table = (mintLoop W W.mintRequests ⟨Option.none, []⟩ s.gen
      s.table).scig.saved_cids.foldl
        (fun acc c => insert_cid c s.nextRef acc) s.table := by
    rw [hS1def]
    show (SCIG.set_connection _ _ _).2 = _
    unfold SCIG.set_connection
    rw [(mintLoop_unlinked W W.mintRequests ⟨Option.none, []⟩ s.gen s.table
      rfl).2.1]
  have hlookR : lookupStore S1.store s.nextRef
      = some ⟨c1, some ⟨d.src, od.getD pkt.dcid⟩⟩ := by
    rw [hS1def]
    apply lookupStore_update_same
    rw [lookupStore_isSome_iff]
    simp
  have hlookold : ∀ x, ¬x = s.nextRef →
      lookupStore S1.store x = lookupStore s.store x := by
    intro x hx
    rw [hS1def]
    show lookupStore (updateStore _ _ _) x = _
    rw [lookupStore_update_ne hx, lookupStore_append]
    have hone : lookupStore
        [(s.nextRef, (⟨c0, some ⟨d.src, od.getD pkt.dcid⟩⟩ : SCS C))] x
        = Option.none := by
      rw [lookupStore_cons_ne (fun h => hx h.symm)]
      rfl
    rw [hone]
    cases lookupStore s.store x <;> rfl
  have hT2mem : ∀ p ∈ S1.table, p.2 = s.nextRef ∨ p ∈ s.table := by
    intro p hp
    rw [hT2] at hp
    exact foldl_insert_mem_cases hp
  have hT2dcid : lookupTable S1.table pkt.dcid = Option.none := by
    rw [hT2, foldl_insert_lookup_not_mem hdnotm]
    exact hmiss
  obtain ⟨cid0, hcid0⟩ := List.exists_mem_of_ne_nil _ hminted
  have hcid0T2 : (cid0, s.nextRef) ∈ S1.table := by
    apply lookupTable_mem
    rw [hT2]
    exact foldl_insert_lookup_mem hcid0
  have hgcTable : (gc W S1).table = S1.table.filter (fun p =>
      match lookupStore S1.store p.2 with
      | some scs => !(W.stateC scs.c).isClosed
      | Option.none => false) := rfl
  have hnotclosed : (W.stateC c1).isClosed = false :=
    State.isClosed_eq_false_of_past_false hstate
  have hSFR : (cid0, s.nextRef) ∈ (gc W S1).table := by
    rw [hgcTable]
    refine List.mem_filter.mpr ⟨hcid0T2, ?_⟩
    rw [hlookR]
    simp [hnotclosed]
  have hSFstore : ∀ x, lookupStore (gc W S1).store x
      = if ((gc W S1).table.find? fun p => decide (p.2 = x)).isSome
        then lookupStore S1.store x else Option.none := by
    intro x
    exact @lookupStore_filter_keyfun C
      (fun i => ((gc W S1).table.find? fun p => decide (p.2 = i)).isSome)
      S1.store x
  have hfR : ((gc W S1).table.find? fun p =>
      decide (p.2 = s.nextRef)).isSome = true := by
    rw [List.find?_isSome]
    exact ⟨(cid0, s.nextRef), hSFR, by simp⟩
  have hSFlookR : lookupStore (gc W S1).store s.nextRef
      = some ⟨c1, some ⟨d.src, od.getD pkt.dcid⟩⟩ := by
    rw [hSFstore, if_pos hfR, hlookR]
  have hconc1 : s.nextRef ∈ (gc W S1).store.map Prod.fst := by
    rw [← lookupStore_isSome_iff, hSFlookR]
    rfl
  have hfa2 : findAttempt (gc W S1).store (gc W S1).table
      ⟨d.src, od.getD pkt.dcid⟩ = some s.nextRef := by
    unfold findAttempt
    cases hfind : (gc W S1).table.find? (fun p =>
        match lookupStore (gc W S1).store p.2 with
        | some scs => decide (scs.active_attempt
            = some ⟨d.src, od.getD pkt.dcid⟩)
        | Option.none => false) with
    | none =>
      exfalso
      rw [List.find?_eq_none] at hfind
      apply hfind (cid0, s.nextRef) hSFR
      rw [hSFlookR]
      simp
    | some a =>
      have hpa := List.find?_some hfind
      have hamem := List.mem_of_find?_eq_some hfind
      cases hla : lookupStore (gc W S1).store a.2 with
      | none => rw [hla] at hpa; cases hpa
      | some scs =>
        rw [hla] at hpa
        have hatt : scs.active_attempt
            = some ⟨d.src, od.getD pkt.dcid⟩ := of_decide_eq_true hpa
        by_cases haR : a.2 = s.nextRef
        · rw [Option.map_some', haR]
        · exfalso
          have haS1 : a ∈ S1.table := by
            rw [hgcTable] at hamem
            exact List.mem_of_mem_filter hamem
          rcases hT2mem a haS1 with h | hmem
          · exact haR h
          · have h1 : lookupStore S1.store a.2 = some scs := by
              rw [hSFstore] at hla
              by_cases hif : ((gc W S1).table.find? fun p =>
                  decide (p.2 = a.2)).isSome = true
              · rw [if_pos hif] at hla
                exact hla
              · rw [if_neg (by simp [hif])] at hla
                cases hla
            have h2 : lookupStore s.store a.2 = some scs := by
              rw [← hlookold a.2 haR]
              exact h1
            unfold findAttempt at hnoatt
            rw [Option.map_eq_none', List.find?_eq_none] at hnoatt
            have hnm := hnoatt a hmem
            rw [h2] at hnm
            apply hnm
            dsimp only
            rw [hatt]
            simp
  -- the second delivery: triage routes to the existing connection
  have hvers : unsupportedVersion pkt (gc W S1).versions
      = Except.ok false := by
    have h : (gc W S1).versions = s.versions := by
      rw [hS1def]
      rfl
    rw [h]
    exact hu
  have hsurv2a : survivesWith (gc W S1).policy pkt.token d.src now2
      = some od := by
    have h : (gc W S1).policy = s.policy := by
      rw [hS1def]
      rfl
    rw [h]
    exact hsurv2
  have hmiss2 : Server.connection (gc W S1) pkt.dcid = Option.none := by
    apply lookupTable_none_of_not_mem
    intro p hp
    have hpS1 : p ∈ S1.table := by
      rw [hgcTable] at hp
      exact List.mem_of_mem_filter hp
    exact lookupTable_eq_none hT2dcid p hpS1
  have hroute : process_input W (gc W S1) d now2
      = processRef W (gc W S1) s.nextRef (some d) now2 := by
    rw [process_input_eq_initial W now2 hdec hmiss2 hty hv hvers hlen,
      handle_initial_eq_survives W hsurv2a,
      connection_attempt_eq_processRef W hfa2]
  refine ⟨hconc1, hfa2, hroute, ?_⟩
  -- the second full call creates no connection
  have hwfSF : WF (gc W S1) := WF_gc W S1
  have hRSome : (lookupStore (gc W S1).store s.nextRef).isSome = true := by
    rw [hSFlookR]
    rfl
  obtain ⟨scs', hscs', heq2⟩ := processRef_ok W hRSome (some d) now2
  have hpi2 : process_input W (gc W S1) d now2
      = Except.ok ((SCS.process W scs' (some d) now2).2,
        { (gc W S1) with
          store := updateStore (gc W S1).store s.nextRef
              (SCS.process W scs' (some d) now2).1 }) := by
    rw [hroute]
    exact heq2
  cases hout2 : (SCS.process W scs' (some d) now2).2 with
  | datagram dd =>
    rw [hout2] at hpi2
    rw [process_eq_datagram hpi2]
    dsimp only
    refine ⟨rfl, ?_⟩
    rw [List.all_eq_true]
    intro i hi
    apply List.elem_eq_true_of_mem
    have h1 := (gc_frame W _).2.2.2.2 i hi
    rw [updateStore_ids] at h1
    exact h1
  | callback t =>
    rw [hout2] at hpi2
    rw [process_eq_callback hpi2]
    dsimp only
    refine ⟨rfl, ?_⟩
    rw [List.all_eq_true]
    intro i hi
    apply List.elem_eq_true_of_mem
    have h1 := (gc_frame W _).2.2.2.2 i hi
    rw [updateStore_ids] at h1
    exact h1
  | none =>
    rw [hout2] at hpi2
    have hwfS2 : WF ({ (gc W S1) with
        store := updateStore (gc W S1).store s.nextRef
          (SCS.process W scs' (some d) now2).1 } : Server C G) :=
      WF_of_same hwfSF rfl (updateStore_ids _ _ _)
    obtain ⟨outs, s'', hrun, _, _, _, _, _, hscan⟩ :=
      scanLoop_spec W _ _ now2 (table_refs_in_store hwfS2)
    obtain ⟨s3, hs3, h3t, h3ids, h3nr, _, _⟩ := hscan Option.none
    rw [process_eq_scan hpi2 hs3]
    dsimp only
    refine ⟨h3nr, ?_⟩
    rw [List.all_eq_true]
    intro i hi
    apply List.elem_eq_true_of_mem
    have h1 := (gc_frame W s3).2.2.2.2 i hi
    rw [h3ids] at h1
    rw [updateStore_ids] at h1
    exact h1

set_option maxRecDepth 8000 in
theorem c2_duplicate_initial_witness :
    0 ∈ c2S1.store.map Prod.fst ∧
    findAttempt c2S1.store c2S1.table ⟨0, [7]⟩ = some 0 ∧
    process_input c2World c2S1 c2Dgram 0
      = processRef c2World c2S1 0 (some c2Dgram) 0 ∧
    (c2S2.nextRef = c2S1.nextRef ∧
      ((c2S2.store.map Prod.fst).all
        (fun i => (c2S1.store.map Prod.fst).elem i)) = true) :=
  c2_duplicate_initial c2World (Server.new [1] ()) c2Dgram
    ⟨PacketType.initial, [7], [8], [], some 1, 1⟩ 0 0 1 Option.none 0 1
    ⟨1, 0, 0, [42]⟩ rfl rfl rfl (by decide) (by decide) rfl rfl rfl rfl rfl
    (by decide) (by decide) rfl (by decide)

end Neqo

